import Mathlib

/-!
Shallow embedding of the pubmedx core services
(`app/services/graph_service.py`, `app/services/pubmed_service.py`,
`app/services/analytics_service.py`) and proofs about the properties
stated for them.

Conventions of the embedding:
* PubMed identifiers (pmids) and graph identifiers are `String`s, as in the
  Python code.
* The external NCBI API is a parameter: a build receives a `Fetch` oracle
  giving, per pmid, either `none` (the `try` block around the per-node work
  raised, i.e. the `asyncio.gather` failed) or the pair of results of
  `get_article_details` (`Option Article`, `none` meaning the details fetch
  returned no data and a placeholder node is used) and
  `get_article_relationships` (the `references` and `citations` lists).
* `networkx.DiGraph` is embedded by `DiGraph`: an insertion-ordered node
  list and an edge list with at most one edge per ordered `(src, tgt)`
  pair; `add_edge` on an existing pair updates the stored attributes in
  place, and auto-inserts missing endpoint nodes, exactly as networkx does.
* Wall-clock behaviour (`asyncio.sleep`, timestamps, jitter) is not
  modelled; `created_at`/`completed_at` are tracked only as presence flags.
* Python `try/except` blocks are modelled with `Option`: `none` is the
  exception path.
-/

namespace PubMedX

/-- Lifecycle status of a graph, the values stored in
`graph.graph['status']` by `GraphService`. -/
inductive Status where
  | initializing
  | building
  | completed
  | completedWithLimit
deriving DecidableEq, Repr

/-- Article metadata assembled by `PubMedService.get_article_details`. -/
structure Article where
  pmid : String
  title : String
  authors : List String
  journal : String
  pubdate : String
  abstractText : String
  doi : String
  lastUpdated : String
deriving DecidableEq, Repr

/-- A directed edge with its `relationship_type` attribute. -/
structure Edge where
  src : String
  tgt : String
  rel : String
deriving DecidableEq, Repr

/-- Embedding of `networkx.DiGraph`: node keys in insertion order with the
node payload (`none` models the placeholder / attribute-less nodes), and at
most one edge per ordered pair. -/
structure DiGraph where
  nodes : List (String × Option Article)
  edges : List Edge
deriving DecidableEq, Repr

def DiGraph.empty : DiGraph := ⟨[], []⟩

/-- Node membership test (`v in graph`). -/
def DiGraph.hasNode (g : DiGraph) (v : String) : Bool :=
  g.nodes.any (fun p => p.1 == v)

/-- `graph.add_node(v, **attrs)`: inserts the node, or updates the stored
attributes when the node already exists. -/
def DiGraph.addNode (g : DiGraph) (v : String) (d : Option Article) : DiGraph :=
  if g.hasNode v then
    { g with nodes := g.nodes.map (fun p => if p.1 == v then (v, d) else p) }
  else
    { g with nodes := g.nodes ++ [(v, d)] }

/-- Insert a node as attribute-less when it is missing (what `add_edge`
does to absent endpoints). -/
def DiGraph.ensureNode (g : DiGraph) (v : String) : DiGraph :=
  if g.hasNode v then g else { g with nodes := g.nodes ++ [(v, none)] }

/-- `graph.add_edge(u, v, relationship_type=r)`: missing endpoints are
auto-inserted as attribute-less nodes; a `DiGraph` holds at most one edge
per ordered pair, so inserting over an existing `(u, v)` edge replaces its
attributes instead of adding a parallel edge. -/
def DiGraph.addEdge (g : DiGraph) (u v : String) (r : String) : DiGraph :=
  let g2 := (g.ensureNode u).ensureNode v
  if g2.edges.any (fun e => e.src == u && e.tgt == v) then
    { g2 with edges := g2.edges.map (fun e => if e.src == u && e.tgt == v then ⟨u, v, r⟩ else e) }
  else
    { g2 with edges := g2.edges ++ [⟨u, v, r⟩] }

/-- The `relationship_type` attribute of the `(u, v)` edge, when present. -/
def DiGraph.edgeRel (g : DiGraph) (u v : String) : Option String :=
  (g.edges.find? (fun e => e.src == u && e.tgt == v)).map (fun e => e.rel)

/-- One graph held by `GraphService.graphs`, i.e. a `nx.DiGraph` together
with its `graph.graph[...]` metadata.  The graph id is the store key; the
timestamps are tracked as presence flags only (`completedAt` models whether
`completed_at` has been set; `limit_reached` and `completed_at` are absent
after `create_graph`, modelled by `false`). -/
structure GraphEntry where
  seed : String
  status : Status
  totalArticles : Nat
  processedArticles : Nat
  limitReached : Bool
  completedAt : Bool
  graph : DiGraph
deriving DecidableEq, Repr

/-- The fresh graph built by `GraphService.create_graph`. -/
def createEntry (seedPmid : String) : GraphEntry :=
  { seed := seedPmid
    status := .initializing
    totalArticles := 0
    processedArticles := 0
    limitReached := false
    completedAt := false
    graph := DiGraph.empty }

/-- `GraphService.MAX_ARTICLES`. -/
def MAX_ARTICLES : Nat := 50

/-- The external API, per pmid: `none` models the per-node `try` block
raising (nothing attached for that node); otherwise the details
(`Option Article`) and the `references` and `citations` id lists. -/
abbrev Fetch := String → Option (Option Article × List String × List String)

/-- The `references` list fetched for a pmid (empty on fetch failure). -/
def seedRefs (fetch : Fetch) (pmid : String) : List String :=
  match fetch pmid with
  | some (_, refs, _) => refs
  | none => []

/-- The `citations` list fetched for a pmid (empty on fetch failure). -/
def seedCits (fetch : Fetch) (pmid : String) : List String :=
  match fetch pmid with
  | some (_, _, cits) => cits
  | none => []

/-- How many relationship entries the seed contributes; bounds the number
of frontier appends a build can perform. -/
def seedCount (fetch : Fetch) (pmid : String) : Nat :=
  (seedRefs fetch pmid).length + (seedCits fetch pmid).length

/-- The `for ref_pmid in relationships['references']` loop of
`build_graph`: a `cites` edge from the current (seed) article to each
reference, and a frontier append for references not yet processed, each
guarded by `len(processed_pmids) < MAX_ARTICLES`. -/
def expandReferences (current : String) (processed : List String)
    (refs : List String) (st : DiGraph × List (String × Nat)) :
    DiGraph × List (String × Nat) :=
  refs.foldl (fun st ref =>
    if processed.length < MAX_ARTICLES then
      (st.1.addEdge current ref "cites",
       if processed.contains ref then st.2 else st.2 ++ [(ref, 1)])
    else st) st

/-- The `for citation_pmid in relationships['citations']` loop of
`build_graph`: a `cited_by` edge from each citing article into the current
(seed) article, same guard and frontier append. -/
def expandCitations (current : String) (processed : List String)
    (cits : List String) (st : DiGraph × List (String × Nat)) :
    DiGraph × List (String × Nat) :=
  cits.foldl (fun st cit =>
    if processed.length < MAX_ARTICLES then
      (st.1.addEdge cit current "cited_by",
       if processed.contains cit then st.2 else st.2 ++ [(cit, 1)])
    else st) st

/-- The mutable state of the `while` loop in `build_graph`: the graph entry
being populated, the `processed_pmids` set (as a duplicate-free list) and
the `to_process` FIFO frontier of `(pmid, depth)` pairs. -/
structure LoopState where
  entry : GraphEntry
  processed : List String
  frontier : List (String × Nat)
deriving DecidableEq, Repr

/-- Process a popped, not-yet-processed pmid `c`: mark it processed and
bump `processed_articles`; on fetch failure log and continue with nothing
attached; otherwise attach the node (placeholder when details are absent),
expand references and citations when `c` is the seed, and refresh
`total_articles` to the node count. -/
def processNode (fetch : Fetch) (seedPmid c : String)
    (rest : List (String × Nat)) (s : LoopState) : LoopState :=
  let processed1 := c :: s.processed
  let e1 := { s.entry with processedArticles := s.entry.processedArticles + 1 }
  match fetch c with
  | none =>
    { entry := e1, processed := processed1, frontier := rest }
  | some (details, refs, cits) =>
    let g1 := e1.graph.addNode c details
    let expanded :=
      if c == seedPmid then
        expandCitations c processed1 cits
          (expandReferences c processed1 refs (g1, rest))
      else (g1, rest)
    let e2 := { e1 with graph := expanded.1,
                        totalArticles := expanded.1.nodes.length }
    { entry := e2, processed := processed1, frontier := expanded.2 }

/-- One iteration of the `while to_process and len(processed_pmids) <
MAX_ARTICLES` loop body; `none` when the loop guard fails.  The branches
are: skip an already-processed pmid, else process it via `processNode`. -/
def buildStepOpt (fetch : Fetch) (seedPmid : String) (s : LoopState) :
    Option LoopState :=
  match s.frontier with
  | [] => none
  | (c, _depth) :: rest =>
    if s.processed.length < MAX_ARTICLES then
      if s.processed.contains c then
        some { s with frontier := rest }
      else
        some (processNode fetch seedPmid c rest s)
    else none

/-- The `while` loop of `build_graph`, fuelled; `buildFuel` below always
suffices, so the fuel-out case is never reached from a build's initial
state. -/
def buildLoop (fetch : Fetch) (seedPmid : String) :
    Nat → LoopState → LoopState
  | 0, s => s
  | fuel + 1, s =>
    match buildStepOpt fetch seedPmid s with
    | none => s
    | some s' => buildLoop fetch seedPmid fuel s'

/-- Every loop-head state of the `while` loop, in order (the final state
included): the points at which the loop guard is evaluated. -/
def buildTrace (fetch : Fetch) (seedPmid : String) :
    Nat → LoopState → List LoopState
  | 0, s => [s]
  | fuel + 1, s =>
    s :: (match buildStepOpt fetch seedPmid s with
          | none => []
          | some s' => buildTrace fetch seedPmid fuel s')

/-- The state right before the loop: status set to `building`, empty
processed set, frontier seeded with `(seed_pmid, 0)`. -/
def buildStartState (e : GraphEntry) : LoopState :=
  { entry := { e with status := .building }
    processed := []
    frontier := [(e.seed, 0)] }

/-- Sufficient fuel for the loop: one pop for the seeded entry plus one per
possible frontier append (only the seed's expansion appends). -/
def buildFuel (fetch : Fetch) (seedPmid : String) : Nat :=
  seedCount fetch seedPmid + 1

/-- The loop state at loop exit for a build of `e`. -/
def buildFinalState (fetch : Fetch) (e : GraphEntry) : LoopState :=
  buildLoop fetch e.seed (buildFuel fetch e.seed) (buildStartState e)

/-- All loop-head states of a build of `e` (every point at which the
`while` guard is evaluated). -/
def buildTraceOf (fetch : Fetch) (e : GraphEntry) : List LoopState :=
  buildTrace fetch e.seed (buildFuel fetch e.seed) (buildStartState e)

/-- The dictionary returned by `build_graph`. -/
structure BuildResult where
  status : Status
  totalArticles : Nat
  totalRelationships : Nat
  limitReached : Bool
deriving DecidableEq, Repr

/-- `GraphService.build_graph` on a stored graph entry.  `maxDepth` is the
`max_depth` parameter, which the Python code accepts and never consults (it
only stores depth numbers in frontier tuples).  No status check is
performed on entry: the status is set to `building` unconditionally and the
loop always runs.  On loop exit the status is `completed_with_limit`
exactly when `len(processed_pmids) >= MAX_ARTICLES`, else `completed`. -/
def buildGraph (fetch : Fetch) (e : GraphEntry) (maxDepth : Nat) :
    GraphEntry × BuildResult :=
  let _ := maxDepth
  let sF := buildFinalState fetch e
  let eF :=
    if MAX_ARTICLES ≤ sF.processed.length then
      { sF.entry with status := .completedWithLimit, limitReached := true,
                      completedAt := true }
    else
      { sF.entry with status := .completed, completedAt := true }
  (eF, { status := eF.status
         totalArticles := eF.totalArticles
         totalRelationships := eF.graph.edges.length
         limitReached := eF.limitReached })

/-- `PubMedService.MAX_RETRIES`. -/
def MAX_RETRIES : Nat := 3

/-- Outcome of one transport attempt inside `_make_request`: HTTP 200 with
a body, HTTP 429, another HTTP status, an `asyncio.TimeoutError`, or any
other exception raised by the request. -/
inductive HttpOutcome where
  | success (body : String)
  | rateLimited
  | otherStatus (code : Nat)
  | timeout
  | transportError
deriving DecidableEq, Repr

/-- `PubMedService._make_request`, recursion fuelled (the attempt counter
`retries` strictly increases on every recursive call and is bounded by
`MAX_RETRIES`, so `MAX_RETRIES + 1 - retries` fuel always suffices).  The
transport is an oracle from the attempt counter to that attempt's outcome.
Branches, as in the source: 200 returns the body; 429 retries while
`retries < MAX_RETRIES`, else returns `None`; any other status returns
`None`; `asyncio.TimeoutError` returns `None` with no retry; any other
exception retries while `retries < MAX_RETRIES`, else returns `None`.
The backoff sleeps (`2 ** retries` plus jitter) are real time and are not
modelled. -/
def makeRequestAux (transport : Nat → HttpOutcome) :
    Nat → Nat → Option String
  | 0, _ => none
  | fuel + 1, retries =>
    match transport retries with
    | .success body => some body
    | .rateLimited =>
      if retries < MAX_RETRIES then makeRequestAux transport fuel (retries + 1)
      else none
    | .otherStatus _ => none
    | .timeout => none
    | .transportError =>
      if retries < MAX_RETRIES then makeRequestAux transport fuel (retries + 1)
      else none

/-- `_make_request` entered with a given attempt counter (the service calls
it with `retries = 0`). -/
def makeRequest (transport : Nat → HttpOutcome) (retries : Nat) :
    Option String :=
  makeRequestAux transport (MAX_RETRIES + 1 - retries) retries

/-- `GraphService.graphs`: the mutable dictionary of graphs keyed by graph
id (keys are unique; insertion order preserved, as for a Python dict). -/
abbrev Store := List (String × GraphEntry)

/-- `graph_id in self.graphs` / `self.graphs[graph_id]` lookup. -/
def Store.find (s : Store) (graphId : String) : Option GraphEntry :=
  (List.find? (fun p => p.1 == graphId) s).map (fun p => p.2)

/-- `self.graphs[graph_id] = graph`: replaces the entry when the key is
already present, otherwise appends it. -/
def Store.set (s : Store) (graphId : String) (e : GraphEntry) : Store :=
  if List.any s (fun p => p.1 == graphId) then
    List.map (fun p => if p.1 == graphId then (graphId, e) else p) s
  else
    s ++ [(graphId, e)]

/-- The dictionary returned by `GraphService.create_graph`. -/
structure CreateSummary where
  graphId : String
  seedPmid : String
  status : Status
deriving DecidableEq, Repr

/-- `GraphService.create_graph`: unconditionally stores a fresh empty graph
under the id (silently replacing any existing entry) and returns the
`initializing` summary. -/
def createGraph (s : Store) (graphId seedPmid : String) :
    Store × CreateSummary :=
  (Store.set s graphId (createEntry seedPmid),
   { graphId := graphId, seedPmid := seedPmid, status := .initializing })

/-- The dictionary returned by `GraphService.get_graph_status`. -/
structure StatusView where
  graphId : String
  status : Status
  totalArticles : Nat
  processedArticles : Nat
  completedAt : Bool
  limitReached : Bool
deriving DecidableEq, Repr

/-- `GraphService.get_graph_status`: `None` for an unknown id (the
`created_at` timestamp it also returns is not modelled). -/
def getGraphStatus (s : Store) (graphId : String) : Option StatusView :=
  (Store.find s graphId).map (fun g =>
    { graphId := graphId
      status := g.status
      totalArticles := g.totalArticles
      processedArticles := g.processedArticles
      completedAt := g.completedAt
      limitReached := g.limitReached })

/-- One node entry of the visualization data built by `get_graph_data`;
`title` falls back to `PMID: <id>` exactly when the stored attributes have
no title (placeholder and edge-created nodes). -/
structure NodeView where
  id : String
  title : String
  authors : List String
  journal : String
  pubdate : String
  isSeed : Bool
deriving DecidableEq, Repr

/-- One edge entry of the visualization data (the serialized key of
`etype` is named `type` in the Python dict). -/
structure EdgeView where
  source : String
  target : String
  etype : String
deriving DecidableEq, Repr

/-- The dictionary returned by `GraphService.get_graph_data`. -/
structure GraphDataView where
  nodes : List NodeView
  edges : List EdgeView
  graphId : String
  seedPmid : String
  status : Status
  totalArticles : Nat
  totalRelationships : Nat
  completedAt : Bool
  limitReached : Bool
deriving DecidableEq, Repr

/-- `GraphService.get_graph_data`: `None` for an unknown id, else the
node/edge lists plus metadata. -/
def getGraphData (s : Store) (graphId : String) : Option GraphDataView :=
  (Store.find s graphId).map (fun g =>
    let nodes := g.graph.nodes.map (fun p =>
      { id := p.1
        title := match p.2 with
                 | some a => a.title
                 | none => "PMID: " ++ p.1
        authors := match p.2 with
                   | some a => a.authors
                   | none => []
        journal := match p.2 with
                   | some a => a.journal
                   | none => ""
        pubdate := match p.2 with
                   | some a => a.pubdate
                   | none => ""
        isSeed := p.1 == g.seed })
    let edges := g.graph.edges.map (fun e =>
      { source := e.src, target := e.tgt, etype := e.rel })
    { nodes := nodes
      edges := edges
      graphId := graphId
      seedPmid := g.seed
      status := g.status
      totalArticles := g.totalArticles
      totalRelationships := edges.length
      completedAt := g.completedAt
      limitReached := g.limitReached })

/-! ### Analytics engine (`GraphAnalyticsService`)

The embedding covers the facets the stated properties mention: basic
statistics (`_get_basic_statistics`), clustering (`_analyze_clustering`),
path analysis (`_analyze_paths`) and per-node analytics
(`get_node_analytics`).  The networkx calls these methods make are
embedded with the same special cases the networkx implementations have
(trivial-graph and disconnected-graph behaviour included).  The remaining
facets (centrality measures, network structure, research insights,
summary) are independent sub-computations that no stated property
mentions. -/

/-- The node keys of a graph. -/
def DiGraph.keys (g : DiGraph) : List String :=
  g.nodes.map (fun p => p.1)

/-- Directed adjacency: there is an edge from `u` to `v`. -/
def DiGraph.adjD (g : DiGraph) (u v : String) : Bool :=
  g.edges.any (fun e => e.src == u && e.tgt == v)

/-- Undirected adjacency (the `to_undirected()` projection). -/
def DiGraph.adjU (g : DiGraph) (u v : String) : Bool :=
  g.edges.any (fun e => (e.src == u && e.tgt == v) || (e.src == v && e.tgt == u))

/-- Out-neighbors (`graph.successors` / `graph.neighbors`). -/
def DiGraph.successors (g : DiGraph) (v : String) : List String :=
  (g.keys).filter (fun u => g.adjD v u)

/-- In-neighbors (`graph.predecessors`). -/
def DiGraph.predecessors (g : DiGraph) (v : String) : List String :=
  (g.keys).filter (fun u => g.adjD u v)

/-- `graph.in_degree(v)`. -/
def DiGraph.inDegree (g : DiGraph) (v : String) : Nat :=
  (g.edges.filter (fun e => e.tgt == v)).length

/-- `graph.out_degree(v)`. -/
def DiGraph.outDegree (g : DiGraph) (v : String) : Nat :=
  (g.edges.filter (fun e => e.src == v)).length

/-- `graph.degree(v)` on a `DiGraph`: in-degree plus out-degree. -/
def DiGraph.degree (g : DiGraph) (v : String) : Nat :=
  g.inDegree v + g.outDegree v

/-- One breadth-first expansion step over nodes of the graph: keep the
current set and add every key adjacent to it. -/
def expandOnce (adj : String → String → Bool) (keys : List String)
    (cur : List String) : List String :=
  keys.filter (fun v => cur.contains v || cur.any (fun u => adj u v))

/-- `n`-fold breadth-first expansion; after `keys.length` steps this is the
set of keys reachable from the start set. -/
def iterExpand (adj : String → String → Bool) (keys : List String) :
    Nat → List String → List String
  | 0, cur => cur
  | n + 1, cur => iterExpand adj keys n (expandOnce adj keys cur)

/-- Directed reachability from `u` to `v` (paths of length zero
included). -/
def DiGraph.reachD (g : DiGraph) (u v : String) : Bool :=
  (iterExpand g.adjD g.keys g.keys.length [u]).contains v

/-- Undirected reachability from `u` to `v`. -/
def DiGraph.reachU (g : DiGraph) (u v : String) : Bool :=
  (iterExpand g.adjU g.keys g.keys.length [u]).contains v

/-- The weakly connected component of `v`, as the canonical sublist of the
key list. -/
def DiGraph.weakComponentOf (g : DiGraph) (v : String) : List String :=
  g.keys.filter (fun u => g.reachU v u)

/-- The weakly connected components (each listed once). -/
def DiGraph.weakComponents (g : DiGraph) : List (List String) :=
  (g.keys.map (fun v => g.weakComponentOf v)).dedup

/-- `nx.is_weakly_connected` (the caller guards against the empty graph,
on which networkx raises). -/
def DiGraph.isWeaklyConnected (g : DiGraph) : Bool :=
  g.weakComponents.length == 1

/-- The strongly connected component of `v`, as the canonical sublist of
the key list. -/
def DiGraph.sccOf (g : DiGraph) (v : String) : List String :=
  g.keys.filter (fun u => g.reachD v u && g.reachD u v)

/-- `nx.strongly_connected_components` (each component listed once). -/
def DiGraph.sccs (g : DiGraph) : List (List String) :=
  (g.keys.map (fun v => g.sccOf v)).dedup

/-- `max(nx.strongly_connected_components(graph), key=len)`: the first
largest component. -/
def DiGraph.largestSCC (g : DiGraph) : List String :=
  g.sccs.foldl (fun best c => if best.length < c.length then c else best) []

/-- `nx.is_strongly_connected`: every key reaches every key (the callers
guard against the empty graph, on which networkx raises). -/
def DiGraph.isStronglyConnected (g : DiGraph) : Bool :=
  !g.nodes.isEmpty &&
    g.keys.all (fun u => g.keys.all (fun v => g.reachD u v))

/-- The node-induced subgraph `graph.subgraph(vs)`. -/
def DiGraph.subgraphOf (g : DiGraph) (vs : List String) : DiGraph :=
  { nodes := g.nodes.filter (fun p => vs.contains p.1)
    edges := g.edges.filter (fun e => vs.contains e.src && vs.contains e.tgt) }

/-- Directed shortest-path distance in edges, `none` when `v` is not
reachable from `u`: the least `k` whose `k`-fold expansion of `{u}`
contains `v`. -/
def DiGraph.distD (g : DiGraph) (u v : String) : Option Nat :=
  (List.range (g.keys.length + 1)).findSome? (fun k =>
    if (iterExpand g.adjD g.keys k [u]).contains v then some k else none)

/-- `nx.density` for a directed graph: `0` when there are no edges or at
most one node, else `m / (n * (n - 1))`. -/
def DiGraph.density (g : DiGraph) : ℚ :=
  let n := g.nodes.length
  let m := g.edges.length
  if m = 0 ∨ n ≤ 1 then 0
  else (m : ℚ) / ((n : ℚ) * ((n : ℚ) - 1))

/-- `nx.average_shortest_path_length`, as `Option` (`none` models the
exceptions networkx raises): `none` on the null graph, `0` on the trivial
one-node graph, the mean over ordered pairs when strongly connected, else
`none`.  When the graph is strongly connected every pairwise distance is
defined, so the `getD 0` defaults are never taken there. -/
def DiGraph.averageShortestPath (g : DiGraph) : Option ℚ :=
  let n := g.nodes.length
  if n = 0 then none
  else if n = 1 then some 0
  else if g.isStronglyConnected then
    let total := (g.keys.map (fun u =>
      (g.keys.map (fun v => if u == v then 0 else (g.distD u v).getD 0)).sum)).sum
    some ((total : ℚ) / ((n : ℚ) * ((n : ℚ) - 1)))
  else none

/-- `nx.eccentricity`, as `Option` (`none` models the "found infinite path
length" exception on graphs that are not strongly connected): per node,
its greatest distance to any node. -/
def DiGraph.eccentricity (g : DiGraph) : Option (List (String × Nat)) :=
  if g.keys.all (fun u => g.keys.all (fun v => g.reachD u v)) then
    some (g.keys.map (fun u =>
      (u, (g.keys.map (fun v => (g.distD u v).getD 0)).foldl max 0)))
  else none

/-- `nx.diameter`: the greatest eccentricity (`none` when eccentricity
raises or the graph is empty). -/
def DiGraph.diameter (g : DiGraph) : Option Nat :=
  (g.eccentricity).bind (fun ecc =>
    match ecc.map (fun p => p.2) with
    | [] => none
    | x :: xs => some (xs.foldl max x))

/-- The undirected neighbors used by the clustering coefficient (self
excluded). -/
def DiGraph.undirectedNeighbors (g : DiGraph) (v : String) : List String :=
  g.keys.filter (fun u => !(u == v) && g.adjU v u)

/-- `nx.clustering` on the undirected projection: for a node with fewer
than two neighbors the coefficient is `0`; otherwise the fraction of
ordered neighbor pairs that are themselves adjacent. -/
def DiGraph.localClustering (g : DiGraph) (v : String) : ℚ :=
  let nb := g.undirectedNeighbors v
  let k := nb.length
  if k < 2 then 0
  else
    let links := (nb.map (fun u =>
      (nb.filter (fun w => !(u == w) && g.adjU u w)).length)).sum
    (links : ℚ) / ((k : ℚ) * ((k : ℚ) - 1))

/-- `nx.average_clustering` on the undirected projection, `none` on the
empty graph (networkx divides by the node count). -/
def DiGraph.averageClustering (g : DiGraph) : Option ℚ :=
  let n := g.nodes.length
  if n = 0 then none
  else some (((g.keys.map (fun v => g.localClustering v)).sum) / (n : ℚ))

/-- The dictionary built by `_get_basic_statistics`. -/
structure BasicStatistics where
  totalNodes : Nat
  totalEdges : Nat
  density : ℚ
  averageDegree : ℚ
  maxDegree : Nat
  minDegree : Nat
  isConnected : Bool
  numberOfComponents : Nat
  largestComponentSize : Nat
deriving DecidableEq, Repr

/-- `_get_basic_statistics`; `none` is its `except` branch, taken exactly
when the graph is empty (networkx raises on weak-connectivity of the null
graph; the degree aggregates are separately guarded in the source). -/
def getBasicStatistics (g : DiGraph) : Option BasicStatistics :=
  if g.nodes.isEmpty then none
  else
    let degs := g.keys.map (fun v => g.degree v)
    some
      { totalNodes := g.nodes.length
        totalEdges := g.edges.length
        density := g.density
        averageDegree := ((degs.sum : ℚ)) / ((g.nodes.length : ℚ))
        maxDegree := degs.foldl max 0
        minDegree := match degs with
                     | [] => 0
                     | x :: xs => xs.foldl min x
        isConnected := g.isWeaklyConnected
        numberOfComponents := g.weakComponents.length
        largestComponentSize :=
          (g.weakComponents.map (fun c => c.length)).foldl max 0 }

/-- The dictionary built by `_analyze_clustering`.  The Louvain community
facet is the documented optional capability; the embedding takes its
`ImportError` fallback (empty partition, zero communities), which no stated
property inspects. -/
structure ClusteringResult where
  globalClustering : ℚ
  localClustering : List (String × ℚ)
  averageLocalClustering : ℚ
  numberOfCommunities : Nat
deriving DecidableEq, Repr

/-- `_analyze_clustering`; `none` is its `except` branch, taken exactly
when the graph is empty (`nx.average_clustering` divides by zero there). -/
def analyzeClustering (g : DiGraph) : Option ClusteringResult :=
  (g.averageClustering).map (fun gc =>
    let locals := g.keys.map (fun v => (v, g.localClustering v))
    { globalClustering := gc
      localClustering := locals
      averageLocalClustering :=
        if locals.isEmpty then 0
        else ((locals.map (fun p => p.2)).sum) / ((locals.length : ℚ))
      numberOfCommunities := 0 })

/-- The dictionary built by `_analyze_paths`. -/
structure PathResult where
  averageShortestPath : Option ℚ
  diameter : Option Nat
  eccentricity : List (String × Nat)
  radius : Option Nat
deriving DecidableEq, Repr

/-- `_analyze_paths`; the outer `none` is its `except` branch, taken
exactly when the graph is empty (`nx.is_strongly_connected` raises).
Strongly connected graphs get direct average-shortest-path and diameter
(each in its own `try`, so a one-node graph yields `0`, not null);
otherwise both are computed over the largest strongly connected component
when it has more than one node (a single `try` around both, so a failure
nulls both), else both are null.  Eccentricity and radius likewise come
from the largest component when it has more than one node. -/
def analyzePaths (g : DiGraph) : Option PathResult :=
  if g.nodes.isEmpty then none
  else
    let aspDiam :=
      if g.isStronglyConnected then
        (g.averageShortestPath, g.diameter)
      else
        let cc := g.largestSCC
        if 1 < cc.length then
          let sub := g.subgraphOf cc
          match sub.averageShortestPath, sub.diameter with
          | some a, some d => (some a, some d)
          | _, _ => (none, none)
        else (none, none)
    let eccRad :=
      let cc := g.largestSCC
      if 1 < cc.length then
        match (g.subgraphOf cc).eccentricity with
        | some ecc =>
          (ecc, match ecc.map (fun p => p.2) with
                | [] => none
                | x :: xs => some (xs.foldl min x))
        | none => ([], none)
      else ([], none)
    some
      { averageShortestPath := aspDiam.1
        diameter := aspDiam.2
        eccentricity := eccRad.1
        radius := eccRad.2 }

/-- The result of `analyze_graph`, restricted to the facets the stated
properties mention (see the section comment). -/
structure AnalyticsResult where
  basicStatistics : Option BasicStatistics
  clusteringAnalysis : Option ClusteringResult
  pathAnalysis : Option PathResult
deriving DecidableEq, Repr

/-- `GraphAnalyticsService.analyze_graph`. -/
def analyzeGraph (g : DiGraph) : AnalyticsResult :=
  { basicStatistics := getBasicStatistics g
    clusteringAnalysis := analyzeClustering g
    pathAnalysis := analyzePaths g }

/-- Outcome of `GraphService.get_graph_analytics` for a stored graph:
either the `'error'` dictionary for a graph that is not in a terminal
status, or the analytics. -/
inductive AnalyticsOutcome where
  | notCompleted
  | ok (a : AnalyticsResult)
deriving DecidableEq, Repr

/-- `GraphService.get_graph_analytics`: `None` for an unknown id; the
`'error'` dictionary for a non-terminal graph; else the analytics. -/
def getGraphAnalytics (s : Store) (graphId : String) :
    Option AnalyticsOutcome :=
  (Store.find s graphId).map (fun g =>
    if g.status = .completed ∨ g.status = .completedWithLimit then
      .ok (analyzeGraph g.graph)
    else .notCompleted)

/-- The per-node dictionary built by
`GraphAnalyticsService.get_node_analytics` (the centrality scores it also
merges in belong to the centrality facet, which no stated property
mentions). -/
structure NodeAnalytics where
  nodeId : String
  degree : Nat
  inDegree : Nat
  outDegree : Nat
  neighbors : List String
  predecessors : List String
  successors : List String
deriving DecidableEq, Repr

/-- Outcome of `get_node_analytics` for a stored graph: the `'error'`
dictionary when the node is not in the graph, else the node analytics. -/
inductive NodeOutcome where
  | nodeNotFound
  | ok (n : NodeAnalytics)
deriving DecidableEq, Repr

/-- `GraphService.get_node_analytics`: `None` for an unknown graph id; the
`'error'` dictionary for an unknown node; else the per-node analytics (on
a `DiGraph`, `neighbors` iterates the successors). -/
def getNodeAnalytics (s : Store) (graphId nodeId : String) :
    Option NodeOutcome :=
  (Store.find s graphId).map (fun g =>
    if g.graph.hasNode nodeId then
      .ok { nodeId := nodeId
            degree := g.graph.degree nodeId
            inDegree := g.graph.inDegree nodeId
            outDegree := g.graph.outDegree nodeId
            neighbors := g.graph.successors nodeId
            predecessors := g.graph.predecessors nodeId
            successors := g.graph.successors nodeId }
    else .nodeNotFound)

/-- All edge endpoints are nodes of the graph (decidable form of the
edge-closure invariant). -/
def edgeClosedB (g : DiGraph) : Bool :=
  g.edges.all (fun e => g.hasNode e.src && g.hasNode e.tgt)

/-! ### Concrete fixtures for witnesses and counterexamples -/

/-- An API for which every article exists but has no relationships. -/
def fetchEmpty : Fetch := fun _ => some (none, [], [])

/-- 49 distinct reference pmids, none equal to the seed pmid `"0"`. -/
def refs49 : List String := (List.range 49).map (fun i => Nat.repr (i + 1))

/-- Seed `"0"` has exactly 49 references and no citations; everything else
has none: the build processes exactly `MAX_ARTICLES` identifiers and the
frontier empties at the same moment. -/
def fetch49 : Fetch := fun p =>
  if p = "0" then some (none, refs49, []) else some (none, [], [])

/-- 51 distinct reference pmids, none equal to the seed pmid `"0"`. -/
def refs51 : List String := (List.range 51).map (fun i => Nat.repr (i + 1))

/-- Seed `"0"` has 51 references: more nodes than the budget. -/
def fetch51 : Fetch := fun p =>
  if p = "0" then some (none, refs51, []) else some (none, [], [])

/-- Seed `"1"` lists itself both as a reference and as a citing work. -/
def fetchSelfLoop : Fetch := fun p =>
  if p = "1" then some (none, ["1"], ["1"]) else some (none, [], [])

/-- Seed `"1"` has one reference `"2"` and one citing work `"3"`. -/
def fetchOneEach : Fetch := fun p =>
  if p = "1" then some (none, ["2"], ["3"]) else some (none, [], [])

/-- A transport that times out on the first attempt and would succeed on
the second. -/
def transportTimeoutThenOk : Nat → HttpOutcome := fun n =>
  if n = 0 then .timeout else .success "ok"

/-- A transport that raises a non-timeout error on the first attempt and
succeeds on the second. -/
def transportErrorThenOk : Nat → HttpOutcome := fun n =>
  if n = 0 then .transportError else .success "ok"

/-! ### Lemmas about the embedded networkx operations -/

theorem addNode_edges (g : DiGraph) (v : String) (d : Option Article) :
    (g.addNode v d).edges = g.edges := by
  unfold DiGraph.addNode
  split <;> rfl

theorem hasNode_addNode_of (g : DiGraph) (v : String) (d : Option Article)
    (w : String) (h : g.hasNode w = true) :
    (g.addNode v d).hasNode w = true := by
  unfold DiGraph.addNode
  split
  · simp only [DiGraph.hasNode, List.any_map, List.any_eq_true] at h ⊢
    obtain ⟨p, hp, hpw⟩ := h
    refine ⟨p, hp, ?_⟩
    by_cases hv : p.1 == v
    · have hpv : p.1 = v := by simpa using hv
      simp [Function.comp, hv, ← hpv, hpw]
    · simp [Function.comp, hv, hpw]
  · simp only [DiGraph.hasNode, List.any_append, Bool.or_eq_true]
    exact Or.inl h

theorem hasNode_addNode_self (g : DiGraph) (v : String) (d : Option Article) :
    (g.addNode v d).hasNode v = true := by
  unfold DiGraph.addNode
  split
  · next h =>
    simp only [DiGraph.hasNode, List.any_map, List.any_eq_true] at h ⊢
    obtain ⟨p, hp, hpv⟩ := h
    exact ⟨p, hp, by simp [Function.comp, hpv]⟩
  · simp [DiGraph.hasNode, List.any_append]

theorem addNode_nodes_length_le (g : DiGraph) (v : String) (d : Option Article) :
    (g.addNode v d).nodes.length ≤ g.nodes.length + 1 := by
  unfold DiGraph.addNode
  split <;> simp

theorem nodes_length_le_addNode (g : DiGraph) (v : String) (d : Option Article) :
    g.nodes.length ≤ (g.addNode v d).nodes.length := by
  unfold DiGraph.addNode
  split <;> simp

theorem ensureNode_edges (g : DiGraph) (v : String) :
    (g.ensureNode v).edges = g.edges := by
  unfold DiGraph.ensureNode
  split <;> rfl

theorem hasNode_ensureNode_of (g : DiGraph) (v w : String)
    (h : g.hasNode w = true) : (g.ensureNode v).hasNode w = true := by
  unfold DiGraph.ensureNode
  split
  · exact h
  · simp only [DiGraph.hasNode, List.any_append, Bool.or_eq_true]
    exact Or.inl h

theorem hasNode_ensureNode_self (g : DiGraph) (v : String) :
    (g.ensureNode v).hasNode v = true := by
  unfold DiGraph.ensureNode
  split
  · assumption
  · simp [DiGraph.hasNode, List.any_append]

theorem ensureNode_nodes_length_le (g : DiGraph) (v : String) :
    (g.ensureNode v).nodes.length ≤ g.nodes.length + 1 := by
  unfold DiGraph.ensureNode
  split <;> simp

theorem ensureNode_nodes_length_eq (g : DiGraph) (v : String)
    (h : g.hasNode v = true) : (g.ensureNode v).nodes.length = g.nodes.length := by
  unfold DiGraph.ensureNode
  rw [if_pos h]

theorem nodes_length_le_ensureNode (g : DiGraph) (v : String) :
    g.nodes.length ≤ (g.ensureNode v).nodes.length := by
  unfold DiGraph.ensureNode
  split <;> simp

theorem addEdge_nodes_eq (g : DiGraph) (u v r : String) :
    (g.addEdge u v r).nodes = ((g.ensureNode u).ensureNode v).nodes := by
  unfold DiGraph.addEdge
  dsimp only
  split <;> rfl

theorem hasNode_addEdge_of (g : DiGraph) (u v r w : String)
    (h : g.hasNode w = true) : (g.addEdge u v r).hasNode w = true := by
  have h2 : ((g.ensureNode u).ensureNode v).hasNode w = true :=
    hasNode_ensureNode_of _ _ _ (hasNode_ensureNode_of _ _ _ h)
  simpa [DiGraph.hasNode, addEdge_nodes_eq] using h2

theorem hasNode_addEdge_left (g : DiGraph) (u v r : String) :
    (g.addEdge u v r).hasNode u = true := by
  have h2 : ((g.ensureNode u).ensureNode v).hasNode u = true :=
    hasNode_ensureNode_of _ _ _ (hasNode_ensureNode_self _ _)
  simpa [DiGraph.hasNode, addEdge_nodes_eq] using h2

theorem hasNode_addEdge_right (g : DiGraph) (u v r : String) :
    (g.addEdge u v r).hasNode v = true := by
  have h2 : ((g.ensureNode u).ensureNode v).hasNode v = true :=
    hasNode_ensureNode_self _ _
  simpa [DiGraph.hasNode, addEdge_nodes_eq] using h2

theorem addEdge_nodes_length_le (g : DiGraph) (u v r : String) :
    (g.addEdge u v r).nodes.length ≤ g.nodes.length + 2 := by
  rw [addEdge_nodes_eq]
  calc ((g.ensureNode u).ensureNode v).nodes.length
      ≤ (g.ensureNode u).nodes.length + 1 := ensureNode_nodes_length_le _ _
    _ ≤ g.nodes.length + 1 + 1 :=
        Nat.add_le_add_right (ensureNode_nodes_length_le _ _) 1

theorem addEdge_nodes_length_le_of_hasNode (g : DiGraph) (u v r : String)
    (h : g.hasNode u = true ∨ g.hasNode v = true) :
    (g.addEdge u v r).nodes.length ≤ g.nodes.length + 1 := by
  rw [addEdge_nodes_eq]
  rcases h with h | h
  · calc ((g.ensureNode u).ensureNode v).nodes.length
        ≤ (g.ensureNode u).nodes.length + 1 := ensureNode_nodes_length_le _ _
      _ = g.nodes.length + 1 := by rw [ensureNode_nodes_length_eq _ _ h]
  · have hv : (g.ensureNode u).hasNode v = true := hasNode_ensureNode_of _ _ _ h
    calc ((g.ensureNode u).ensureNode v).nodes.length
        = (g.ensureNode u).nodes.length := ensureNode_nodes_length_eq _ _ hv
      _ ≤ g.nodes.length + 1 := ensureNode_nodes_length_le _ _

theorem nodes_length_le_addEdge (g : DiGraph) (u v r : String) :
    g.nodes.length ≤ (g.addEdge u v r).nodes.length := by
  rw [addEdge_nodes_eq]
  calc g.nodes.length ≤ (g.ensureNode u).nodes.length :=
        nodes_length_le_ensureNode _ _
    _ ≤ ((g.ensureNode u).ensureNode v).nodes.length :=
        nodes_length_le_ensureNode _ _

theorem DiGraph.eq_of (a b : DiGraph) (h1 : a.nodes = b.nodes)
    (h2 : a.edges = b.edges) : a = b := by
  cases a; cases b; simp_all

theorem map_eq_self_of_mem {α : Type} (l : List α) (f : α → α)
    (h : ∀ a ∈ l, f a = a) : l.map f = l := by
  induction l with
  | nil => rfl
  | cons a l ih =>
    simp only [List.map_cons, List.cons.injEq]
    exact ⟨h a (List.mem_cons_self a l),
           ih (fun b hb => h b (List.mem_cons_of_mem a hb))⟩

theorem bool_eq_false {b : Bool} (h : ¬(b = true)) : b = false := by
  cases b
  · rfl
  · exact absurd rfl h

theorem find?_cons_pos' {α : Type} (p : α → Bool) (a : α) (l : List α)
    (h : p a = true) : (a :: l).find? p = some a := by
  rw [List.find?_cons, h]

theorem find?_cons_neg' {α : Type} (p : α → Bool) (a : α) (l : List α)
    (h : p a = false) : (a :: l).find? p = l.find? p := by
  rw [List.find?_cons, h]

theorem find?_append_or {α : Type} (p : α → Bool) (l1 l2 : List α) :
    (l1 ++ l2).find? p =
      (match l1.find? p with
       | some a => some a
       | none => l2.find? p) := by
  induction l1 with
  | nil => simp
  | cons a l1 ih =>
    by_cases ha : p a = true
    · simp [List.find?_cons, ha]
    · simp only [List.cons_append, List.find?_cons, ha]
      simpa [ha] using ih

theorem ensureNode_eq_self (g : DiGraph) (v : String)
    (h : g.hasNode v = true) : g.ensureNode v = g := by
  unfold DiGraph.ensureNode
  rw [if_pos h]

theorem addEdge_edges_shape (g : DiGraph) (u v r : String) :
    (g.addEdge u v r).edges =
      if (g.edges.any fun e => e.src == u && e.tgt == v) = true then
        g.edges.map
          (fun e => if (e.src == u && e.tgt == v) = true then ⟨u, v, r⟩ else e)
      else g.edges ++ [⟨u, v, r⟩] := by
  unfold DiGraph.addEdge
  dsimp only
  rw [ensureNode_edges, ensureNode_edges]
  split <;> rfl

theorem find?_map_replace (l : List Edge) (u v r : String)
    (h : (l.any fun e => e.src == u && e.tgt == v) = true) :
    ((l.map fun e => if (e.src == u && e.tgt == v) = true then (⟨u, v, r⟩ : Edge) else e).find?
        fun e => e.src == u && e.tgt == v) = some ⟨u, v, r⟩ := by
  induction l with
  | nil => simp at h
  | cons e l ih =>
    by_cases he : (e.src == u && e.tgt == v) = true
    · simp only [List.map_cons, if_pos he]
      rw [find?_cons_pos' (fun (e : Edge) => e.src == u && e.tgt == v) ⟨u, v, r⟩ _ (by simp)]
    · simp only [List.any_cons, Bool.or_eq_true] at h
      rcases h with h | h
      · exact absurd h he
      · simp only [List.map_cons, if_neg he]
        rw [find?_cons_neg' (fun (e : Edge) => e.src == u && e.tgt == v) e _ (bool_eq_false he)]
        exact ih h

theorem find?_map_replace_other (l : List Edge) (u v r u' v' : String)
    (hne : ¬(u' = u ∧ v' = v)) :
    ((l.map fun e => if (e.src == u && e.tgt == v) = true then (⟨u, v, r⟩ : Edge) else e).find?
        fun e => e.src == u' && e.tgt == v') =
      (l.find? fun e => e.src == u' && e.tgt == v') := by
  induction l with
  | nil => rfl
  | cons e l ih =>
    by_cases he : (e.src == u && e.tgt == v) = true
    · have hsrc : e.src = u := beq_iff_eq.mp ((Bool.and_eq_true _ _).mp he).1
      have htgt : e.tgt = v := beq_iff_eq.mp ((Bool.and_eq_true _ _).mp he).2
      have hp : ¬((e.src == u' && e.tgt == v') = true) := by
        intro hp'
        refine hne ⟨?_, ?_⟩
        · rw [← hsrc]
          exact (beq_iff_eq.mp ((Bool.and_eq_true _ _).mp hp').1).symm
        · rw [← htgt]
          exact (beq_iff_eq.mp ((Bool.and_eq_true _ _).mp hp').2).symm
      have hpnew : ¬(((⟨u, v, r⟩ : Edge).src == u' && (⟨u, v, r⟩ : Edge).tgt == v') = true) := by
        intro hp'
        apply hp
        show (e.src == u' && e.tgt == v') = true
        rw [hsrc, htgt]
        exact hp'
      simp only [List.map_cons, if_pos he]
      rw [find?_cons_neg' (fun (e : Edge) => e.src == u' && e.tgt == v') ⟨u, v, r⟩ _
            (bool_eq_false hpnew),
          find?_cons_neg' (fun (e : Edge) => e.src == u' && e.tgt == v') e _
            (bool_eq_false hp)]
      exact ih
    · simp only [List.map_cons, if_neg he]
      by_cases hp : (e.src == u' && e.tgt == v') = true
      · rw [find?_cons_pos' (fun (e : Edge) => e.src == u' && e.tgt == v') e _ hp,
            find?_cons_pos' (fun (e : Edge) => e.src == u' && e.tgt == v') e _ hp]
      · rw [find?_cons_neg' (fun (e : Edge) => e.src == u' && e.tgt == v') e _
              (bool_eq_false hp),
            find?_cons_neg' (fun (e : Edge) => e.src == u' && e.tgt == v') e _
              (bool_eq_false hp)]
        exact ih

theorem addEdge_any_match (g : DiGraph) (u v r : String) :
    ((g.addEdge u v r).edges.any fun e => e.src == u && e.tgt == v) = true := by
  rw [addEdge_edges_shape]
  split
  · next h =>
    rw [List.any_eq_true] at h ⊢
    obtain ⟨a, ha, hma⟩ := h
    exact ⟨⟨u, v, r⟩, List.mem_map.mpr ⟨a, ha, by rw [if_pos hma]⟩, by simp⟩
  · simp [List.any_append]

theorem addEdge_matching_eq (g : DiGraph) (u v r : String) :
    ∀ e ∈ (g.addEdge u v r).edges,
      (e.src == u && e.tgt == v) = true → e = ⟨u, v, r⟩ := by
  rw [addEdge_edges_shape]
  split
  · next _ =>
    intro e he hme
    rw [List.mem_map] at he
    obtain ⟨a, _, hfa⟩ := he
    by_cases ha : (a.src == u && a.tgt == v) = true
    · rw [if_pos ha] at hfa
      exact hfa.symm
    · rw [if_neg ha] at hfa
      rw [hfa] at ha
      exact absurd hme ha
  · next hfalse =>
    intro e he hme
    rcases List.mem_append.mp he with hl | hr
    · rw [List.any_eq_true] at hfalse
      exact absurd ⟨e, hl, hme⟩ hfalse
    · simpa using hr

theorem addEdge_mem (g : DiGraph) (u v r : String) :
    ∀ e ∈ (g.addEdge u v r).edges, e = ⟨u, v, r⟩ ∨ e ∈ g.edges := by
  rw [addEdge_edges_shape]
  split
  · intro e he
    rw [List.mem_map] at he
    obtain ⟨a, ha, hfa⟩ := he
    by_cases hm : (a.src == u && a.tgt == v) = true
    · rw [if_pos hm] at hfa
      exact Or.inl hfa.symm
    · rw [if_neg hm] at hfa
      exact Or.inr (hfa ▸ ha)
  · intro e he
    rcases List.mem_append.mp he with hl | hr
    · exact Or.inr hl
    · exact Or.inl (by simpa using hr)

theorem edgeRel_addEdge_self (g : DiGraph) (u v r : String) :
    (g.addEdge u v r).edgeRel u v = some r := by
  unfold DiGraph.edgeRel
  rw [addEdge_edges_shape]
  split
  · next h =>
    rw [find?_map_replace _ _ _ _ h]
    rfl
  · next h =>
    rw [find?_append_or]
    have hnone : (g.edges.find? fun e => e.src == u && e.tgt == v) = none := by
      rw [List.find?_eq_none]
      intro a ha
      rw [List.any_eq_true] at h
      intro hpa
      exact h ⟨a, ha, hpa⟩
    rw [hnone]
    show Option.map (fun (e : Edge) => e.rel)
      (List.find? (fun (e : Edge) => e.src == u && e.tgt == v) [⟨u, v, r⟩]) = some r
    rw [find?_cons_pos' (fun (e : Edge) => e.src == u && e.tgt == v) ⟨u, v, r⟩ [] (by simp)]
    rfl

theorem edgeRel_addEdge_other (g : DiGraph) (u v r u' v' : String)
    (hne : ¬(u' = u ∧ v' = v)) :
    (g.addEdge u v r).edgeRel u' v' = g.edgeRel u' v' := by
  unfold DiGraph.edgeRel
  rw [addEdge_edges_shape]
  split
  · rw [find?_map_replace_other _ _ _ _ _ _ hne]
  · rw [find?_append_or]
    have hx : ¬(((⟨u, v, r⟩ : Edge).src == u' && (⟨u, v, r⟩ : Edge).tgt == v') = true) := by
      intro hp'
      have := (Bool.and_eq_true _ _).mp hp'
      exact hne ⟨(beq_iff_eq.mp this.1).symm, (beq_iff_eq.mp this.2).symm⟩
    cases hfind : (g.edges.find? fun e => e.src == u' && e.tgt == v') with
    | none =>
      show Option.map (fun (e : Edge) => e.rel)
          (List.find? (fun (e : Edge) => e.src == u' && e.tgt == v') [⟨u, v, r⟩]) =
        Option.map (fun (e : Edge) => e.rel) (none : Option Edge)
      rw [find?_cons_neg' (fun (e : Edge) => e.src == u' && e.tgt == v') ⟨u, v, r⟩ []
            (bool_eq_false hx), List.find?_nil]
    | some a => rfl

theorem addEdge_self_idem (g : DiGraph) (u v r : String) :
    (g.addEdge u v r).addEdge u v r = g.addEdge u v r := by
  apply DiGraph.eq_of
  · rw [addEdge_nodes_eq]
    rw [ensureNode_eq_self _ _ (hasNode_addEdge_left g u v r)]
    rw [ensureNode_eq_self _ _ (hasNode_addEdge_right g u v r)]
  · rw [addEdge_edges_shape]
    rw [if_pos (addEdge_any_match g u v r)]
    apply map_eq_self_of_mem
    intro a ha
    by_cases hm : (a.src == u && a.tgt == v) = true
    · rw [if_pos hm]
      exact (addEdge_matching_eq g u v r a ha hm).symm
    · rw [if_neg hm]

theorem addEdge_overwrite_length (g : DiGraph) (u v r r2 : String) :
    ((g.addEdge u v r).addEdge u v r2).edges.length =
      (g.addEdge u v r).edges.length := by
  rw [addEdge_edges_shape ((g.addEdge u v r)) u v r2]
  rw [if_pos (addEdge_any_match g u v r)]
  exact List.length_map _ _

/-! ### Lemmas about the build loop -/

theorem processNode_processed (fetch : Fetch) (sd c : String)
    (rest : List (String × Nat)) (s : LoopState) :
    (processNode fetch sd c rest s).processed = c :: s.processed := by
  unfold processNode
  cases hfc : fetch c with
  | none => rfl
  | some val =>
    obtain ⟨det, refs, cits⟩ := val
    rfl

theorem processNode_processedArticles (fetch : Fetch) (sd c : String)
    (rest : List (String × Nat)) (s : LoopState) :
    (processNode fetch sd c rest s).entry.processedArticles =
      s.entry.processedArticles + 1 := by
  unfold processNode
  cases hfc : fetch c with
  | none => rfl
  | some val =>
    obtain ⟨det, refs, cits⟩ := val
    rfl

theorem processNode_seed (fetch : Fetch) (sd c : String)
    (rest : List (String × Nat)) (s : LoopState) :
    (processNode fetch sd c rest s).entry.seed = s.entry.seed := by
  unfold processNode
  cases hfc : fetch c with
  | none => rfl
  | some val =>
    obtain ⟨det, refs, cits⟩ := val
    rfl

theorem processNode_frontier_of_ne (fetch : Fetch) (sd c : String)
    (rest : List (String × Nat)) (s : LoopState) (hne : (c == sd) = false) :
    (processNode fetch sd c rest s).frontier = rest := by
  unfold processNode
  cases hfc : fetch c with
  | none => rfl
  | some val =>
    obtain ⟨det, refs, cits⟩ := val
    dsimp only
    rw [if_neg (by simp [hne])]

theorem processNode_edges_of_ne (fetch : Fetch) (sd c : String)
    (rest : List (String × Nat)) (s : LoopState) (hne : (c == sd) = false) :
    (processNode fetch sd c rest s).entry.graph.edges =
      s.entry.graph.edges := by
  unfold processNode
  cases hfc : fetch c with
  | none => rfl
  | some val =>
    obtain ⟨det, refs, cits⟩ := val
    dsimp only
    rw [if_neg (by simp [hne])]
    exact addNode_edges _ _ _

theorem buildStepOpt_some_cases {fetch : Fetch} {sd : String}
    {s s' : LoopState} (h : buildStepOpt fetch sd s = some s') :
    ∃ c dep rest, s.frontier = (c, dep) :: rest ∧
      s.processed.length < MAX_ARTICLES ∧
      ((s.processed.contains c = true ∧ s' = { s with frontier := rest }) ∨
       (s.processed.contains c = false ∧
        s' = processNode fetch sd c rest s)) := by
  unfold buildStepOpt at h
  cases hfr : s.frontier with
  | nil =>
    rw [hfr] at h
    exact absurd h (by simp)
  | cons p rest =>
    obtain ⟨c, dep⟩ := p
    rw [hfr] at h
    dsimp only at h
    by_cases hlt : s.processed.length < MAX_ARTICLES
    · rw [if_pos hlt] at h
      by_cases hc : s.processed.contains c = true
      · rw [if_pos hc] at h
        exact ⟨c, dep, rest, rfl, hlt, Or.inl ⟨hc, (Option.some.inj h).symm⟩⟩
      · rw [if_neg hc] at h
        exact ⟨c, dep, rest, rfl, hlt,
          Or.inr ⟨bool_eq_false hc, (Option.some.inj h).symm⟩⟩
    · rw [if_neg hlt] at h
      exact absurd h (by simp)

theorem buildLoop_inv (fetch : Fetch) (sd : String) (P : LoopState → Prop)
    (hstep : ∀ s s', buildStepOpt fetch sd s = some s' → P s → P s') :
    ∀ (fuel : Nat) (s : LoopState), P s → P (buildLoop fetch sd fuel s) := by
  intro fuel
  induction fuel with
  | zero => intro s h; exact h
  | succ n ih =>
    intro s h
    cases hs : buildStepOpt fetch sd s with
    | none =>
      simp only [buildLoop, hs]
      exact h
    | some s' =>
      simp only [buildLoop, hs]
      exact ih s' (hstep s s' hs h)

theorem buildTrace_inv (fetch : Fetch) (sd : String) (P : LoopState → Prop)
    (hstep : ∀ s s', buildStepOpt fetch sd s = some s' → P s → P s') :
    ∀ (fuel : Nat) (s : LoopState), P s →
      ∀ st ∈ buildTrace fetch sd fuel s, P st := by
  intro fuel
  induction fuel with
  | zero =>
    intro s h st hst
    simp only [buildTrace, List.mem_singleton] at hst
    exact hst ▸ h
  | succ n ih =>
    intro s h st hst
    cases hs : buildStepOpt fetch sd s with
    | none =>
      simp only [buildTrace, hs, List.mem_singleton] at hst
      exact hst ▸ h
    | some s' =>
      simp only [buildTrace, hs, List.mem_cons] at hst
      rcases hst with hst | hst
      · exact hst ▸ h
      · exact ih s' (hstep s s' hs h) st hst

/-! ### Lemmas about the seed expansion folds -/

theorem expandReferences_cons (cur : String) (proc : List String)
    (ref : String) (refs : List String) (g : DiGraph)
    (fr : List (String × Nat)) :
    expandReferences cur proc (ref :: refs) (g, fr) =
      expandReferences cur proc refs
        (if proc.length < MAX_ARTICLES then
          (g.addEdge cur ref "cites",
           if proc.contains ref then fr else fr ++ [(ref, 1)])
        else (g, fr)) := by
  simp only [expandReferences, List.foldl_cons]

theorem expandCitations_cons (cur : String) (proc : List String)
    (cit : String) (cits : List String) (g : DiGraph)
    (fr : List (String × Nat)) :
    expandCitations cur proc (cit :: cits) (g, fr) =
      expandCitations cur proc cits
        (if proc.length < MAX_ARTICLES then
          (g.addEdge cit cur "cited_by",
           if proc.contains cit then fr else fr ++ [(cit, 1)])
        else (g, fr)) := by
  simp only [expandCitations, List.foldl_cons]

theorem expandReferences_frontier_le (cur : String) (proc : List String) :
    ∀ (refs : List String) (g : DiGraph) (fr : List (String × Nat)),
      (expandReferences cur proc refs (g, fr)).2.length ≤
        fr.length + refs.length := by
  intro refs
  induction refs with
  | nil => intro g fr; simp [expandReferences]
  | cons ref refs ih =>
    intro g fr
    rw [expandReferences_cons]
    by_cases hlt : proc.length < MAX_ARTICLES
    · rw [if_pos hlt]
      by_cases hm : proc.contains ref
      · rw [if_pos hm]
        calc (expandReferences cur proc refs (g.addEdge cur ref "cites", fr)).2.length
            ≤ fr.length + refs.length := ih _ _
          _ ≤ fr.length + (refs.length + 1) := by omega
      · rw [if_neg hm]
        calc (expandReferences cur proc refs
                (g.addEdge cur ref "cites", fr ++ [(ref, 1)])).2.length
            ≤ (fr ++ [(ref, 1)]).length + refs.length := ih _ _
          _ ≤ fr.length + (refs.length + 1) := by simp; omega
    · rw [if_neg hlt]
      calc (expandReferences cur proc refs (g, fr)).2.length
          ≤ fr.length + refs.length := ih _ _
        _ ≤ fr.length + (refs.length + 1) := by omega

theorem expandCitations_frontier_le (cur : String) (proc : List String) :
    ∀ (cits : List String) (g : DiGraph) (fr : List (String × Nat)),
      (expandCitations cur proc cits (g, fr)).2.length ≤
        fr.length + cits.length := by
  intro cits
  induction cits with
  | nil => intro g fr; simp [expandCitations]
  | cons cit cits ih =>
    intro g fr
    rw [expandCitations_cons]
    by_cases hlt : proc.length < MAX_ARTICLES
    · rw [if_pos hlt]
      by_cases hm : proc.contains cit
      · rw [if_pos hm]
        calc (expandCitations cur proc cits (g.addEdge cit cur "cited_by", fr)).2.length
            ≤ fr.length + cits.length := ih _ _
          _ ≤ fr.length + (cits.length + 1) := by omega
      · rw [if_neg hm]
        calc (expandCitations cur proc cits
                (g.addEdge cit cur "cited_by", fr ++ [(cit, 1)])).2.length
            ≤ (fr ++ [(cit, 1)]).length + cits.length := ih _ _
          _ ≤ fr.length + (cits.length + 1) := by simp; omega
    · rw [if_neg hlt]
      calc (expandCitations cur proc cits (g, fr)).2.length
          ≤ fr.length + cits.length := ih _ _
        _ ≤ fr.length + (cits.length + 1) := by omega

theorem expandReferences_nodes_le (cur : String) (proc : List String) :
    ∀ (refs : List String) (g : DiGraph) (fr : List (String × Nat)),
      g.hasNode cur = true →
      (expandReferences cur proc refs (g, fr)).1.hasNode cur = true ∧
      (expandReferences cur proc refs (g, fr)).1.nodes.length ≤
        g.nodes.length + refs.length := by
  intro refs
  induction refs with
  | nil =>
    intro g fr h
    exact ⟨h, by simp [expandReferences]⟩
  | cons ref refs ih =>
    intro g fr h
    rw [expandReferences_cons]
    simp only [List.length_cons]
    by_cases hlt : proc.length < MAX_ARTICLES
    · rw [if_pos hlt]
      have hcur : (g.addEdge cur ref "cites").hasNode cur = true :=
        hasNode_addEdge_left _ _ _ _
      have hlen : (g.addEdge cur ref "cites").nodes.length ≤ g.nodes.length + 1 :=
        addEdge_nodes_length_le_of_hasNode _ _ _ _ (Or.inl h)
      by_cases hm : proc.contains ref
      · rw [if_pos hm]
        obtain ⟨h1, h2⟩ := ih (g.addEdge cur ref "cites") fr hcur
        exact ⟨h1, by omega⟩
      · rw [if_neg hm]
        obtain ⟨h1, h2⟩ := ih (g.addEdge cur ref "cites") (fr ++ [(ref, 1)]) hcur
        exact ⟨h1, by omega⟩
    · rw [if_neg hlt]
      obtain ⟨h1, h2⟩ := ih g fr h
      exact ⟨h1, by omega⟩

theorem expandCitations_nodes_le (cur : String) (proc : List String) :
    ∀ (cits : List String) (g : DiGraph) (fr : List (String × Nat)),
      g.hasNode cur = true →
      (expandCitations cur proc cits (g, fr)).1.hasNode cur = true ∧
      (expandCitations cur proc cits (g, fr)).1.nodes.length ≤
        g.nodes.length + cits.length := by
  intro cits
  induction cits with
  | nil =>
    intro g fr h
    exact ⟨h, by simp [expandCitations]⟩
  | cons cit cits ih =>
    intro g fr h
    rw [expandCitations_cons]
    simp only [List.length_cons]
    by_cases hlt : proc.length < MAX_ARTICLES
    · rw [if_pos hlt]
      have hcur : (g.addEdge cit cur "cited_by").hasNode cur = true :=
        hasNode_addEdge_right _ _ _ _
      have hlen : (g.addEdge cit cur "cited_by").nodes.length ≤ g.nodes.length + 1 :=
        addEdge_nodes_length_le_of_hasNode _ _ _ _ (Or.inr h)
      by_cases hm : proc.contains cit
      · rw [if_pos hm]
        obtain ⟨h1, h2⟩ := ih (g.addEdge cit cur "cited_by") fr hcur
        exact ⟨h1, by omega⟩
      · rw [if_neg hm]
        obtain ⟨h1, h2⟩ := ih (g.addEdge cit cur "cited_by") (fr ++ [(cit, 1)]) hcur
        exact ⟨h1, by omega⟩
    · rw [if_neg hlt]
      obtain ⟨h1, h2⟩ := ih g fr h
      exact ⟨h1, by omega⟩

theorem edgeClosedB_addNode (g : DiGraph) (v : String) (d : Option Article)
    (h : edgeClosedB g = true) : edgeClosedB (g.addNode v d) = true := by
  rw [edgeClosedB] at h ⊢
  rw [addNode_edges]
  rw [List.all_eq_true] at h ⊢
  intro e he
  have h2 := h e he
  rw [Bool.and_eq_true] at h2 ⊢
  exact ⟨hasNode_addNode_of _ _ _ _ h2.1, hasNode_addNode_of _ _ _ _ h2.2⟩

theorem edgeClosedB_addEdge (g : DiGraph) (u v r : String)
    (h : edgeClosedB g = true) : edgeClosedB (g.addEdge u v r) = true := by
  rw [edgeClosedB, List.all_eq_true] at h ⊢
  intro e he
  rw [Bool.and_eq_true]
  rcases addEdge_mem g u v r e he with rfl | hmem
  · exact ⟨hasNode_addEdge_left _ _ _ _, hasNode_addEdge_right _ _ _ _⟩
  · have h2 := h e hmem
    rw [Bool.and_eq_true] at h2
    exact ⟨hasNode_addEdge_of _ _ _ _ _ h2.1, hasNode_addEdge_of _ _ _ _ _ h2.2⟩

theorem expandReferences_closed (cur : String) (proc : List String) :
    ∀ (refs : List String) (g : DiGraph) (fr : List (String × Nat)),
      edgeClosedB g = true →
      edgeClosedB (expandReferences cur proc refs (g, fr)).1 = true := by
  intro refs
  induction refs with
  | nil => intro g fr h; simpa [expandReferences] using h
  | cons ref refs ih =>
    intro g fr h
    rw [expandReferences_cons]
    by_cases hlt : proc.length < MAX_ARTICLES
    · rw [if_pos hlt]
      by_cases hm : proc.contains ref
      · rw [if_pos hm]
        exact ih _ _ (edgeClosedB_addEdge _ _ _ _ h)
      · rw [if_neg hm]
        exact ih _ _ (edgeClosedB_addEdge _ _ _ _ h)
    · rw [if_neg hlt]
      exact ih _ _ h

theorem expandCitations_closed (cur : String) (proc : List String) :
    ∀ (cits : List String) (g : DiGraph) (fr : List (String × Nat)),
      edgeClosedB g = true →
      edgeClosedB (expandCitations cur proc cits (g, fr)).1 = true := by
  intro cits
  induction cits with
  | nil => intro g fr h; simpa [expandCitations] using h
  | cons cit cits ih =>
    intro g fr h
    rw [expandCitations_cons]
    by_cases hlt : proc.length < MAX_ARTICLES
    · rw [if_pos hlt]
      by_cases hm : proc.contains cit
      · rw [if_pos hm]
        exact ih _ _ (edgeClosedB_addEdge _ _ _ _ h)
      · rw [if_neg hm]
        exact ih _ _ (edgeClosedB_addEdge _ _ _ _ h)
    · rw [if_neg hlt]
      exact ih _ _ h

theorem expandReferences_edgeRel (cur : String) (proc : List String)
    (hlt : proc.length < MAX_ARTICLES) :
    ∀ (refs : List String) (g : DiGraph) (fr : List (String × Nat))
      (u v : String),
      (expandReferences cur proc refs (g, fr)).1.edgeRel u v =
        if u = cur ∧ v ∈ refs then some "cites" else g.edgeRel u v := by
  intro refs
  induction refs with
  | nil =>
    intro g fr u v
    simp [expandReferences]
  | cons ref refs ih =>
    intro g fr u v
    rw [expandReferences_cons, if_pos hlt]
    rw [ih]
    by_cases hu : u = cur
    · by_cases hv : v ∈ refs
      · rw [if_pos ⟨hu, hv⟩, if_pos ⟨hu, List.mem_cons_of_mem _ hv⟩]
      · rw [if_neg (fun hand => hv hand.2)]
        by_cases hvr : v = ref
        · subst hvr
          subst hu
          rw [edgeRel_addEdge_self]
          rw [if_pos ⟨rfl, List.mem_cons_self _ _⟩]
        · rw [edgeRel_addEdge_other _ _ _ _ _ _ (fun hand => hvr hand.2)]
          rw [if_neg (fun hand => by
            rcases List.mem_cons.mp hand.2 with hh | hh
            · exact hvr hh
            · exact hv hh)]
    · rw [if_neg (fun hand => hu hand.1)]
      rw [edgeRel_addEdge_other _ _ _ _ _ _ (fun hand => hu hand.1)]
      rw [if_neg (fun hand => hu hand.1)]

theorem expandCitations_edgeRel (cur : String) (proc : List String)
    (hlt : proc.length < MAX_ARTICLES) :
    ∀ (cits : List String) (g : DiGraph) (fr : List (String × Nat))
      (u v : String),
      (expandCitations cur proc cits (g, fr)).1.edgeRel u v =
        if v = cur ∧ u ∈ cits then some "cited_by" else g.edgeRel u v := by
  intro cits
  induction cits with
  | nil =>
    intro g fr u v
    simp [expandCitations]
  | cons cit cits ih =>
    intro g fr u v
    rw [expandCitations_cons, if_pos hlt]
    rw [ih]
    by_cases hv : v = cur
    · by_cases hu : u ∈ cits
      · rw [if_pos ⟨hv, hu⟩, if_pos ⟨hv, List.mem_cons_of_mem _ hu⟩]
      · rw [if_neg (fun hand => hu hand.2)]
        by_cases huc : u = cit
        · subst huc
          subst hv
          rw [edgeRel_addEdge_self]
          rw [if_pos ⟨rfl, List.mem_cons_self _ _⟩]
        · rw [edgeRel_addEdge_other _ _ _ _ _ _ (fun hand => huc hand.1)]
          rw [if_neg (fun hand => by
            rcases List.mem_cons.mp hand.2 with hh | hh
            · exact huc hh
            · exact hu hh)]
    · rw [if_neg (fun hand => hv hand.1)]
      rw [edgeRel_addEdge_other _ _ _ _ _ _ (fun hand => hv hand.2)]
      rw [if_neg (fun hand => hv hand.1)]

theorem expandReferences_mem (cur : String) (proc : List String) :
    ∀ (refs : List String) (g : DiGraph) (fr : List (String × Nat)),
      ∀ e ∈ (expandReferences cur proc refs (g, fr)).1.edges,
        (e.src = cur ∧ e.tgt ∈ refs) ∨ e ∈ g.edges := by
  intro refs
  induction refs with
  | nil =>
    intro g fr e he
    right
    simpa [expandReferences] using he
  | cons ref refs ih =>
    intro g fr e he
    rw [expandReferences_cons] at he
    by_cases hlt : proc.length < MAX_ARTICLES
    · rw [if_pos hlt] at he
      have hsplit :
          (e.src = cur ∧ e.tgt ∈ refs) ∨ e ∈ (g.addEdge cur ref "cites").edges := by
        by_cases hm : proc.contains ref
        · rw [if_pos hm] at he
          exact ih _ _ e he
        · rw [if_neg hm] at he
          exact ih _ _ e he
      rcases hsplit with ⟨h1, h2⟩ | hmem
      · exact Or.inl ⟨h1, List.mem_cons_of_mem _ h2⟩
      · rcases addEdge_mem _ _ _ _ e hmem with rfl | hg
        · exact Or.inl ⟨rfl, List.mem_cons_self _ _⟩
        · exact Or.inr hg
    · rw [if_neg hlt] at he
      rcases ih _ _ e he with ⟨h1, h2⟩ | hg
      · exact Or.inl ⟨h1, List.mem_cons_of_mem _ h2⟩
      · exact Or.inr hg

theorem expandCitations_mem (cur : String) (proc : List String) :
    ∀ (cits : List String) (g : DiGraph) (fr : List (String × Nat)),
      ∀ e ∈ (expandCitations cur proc cits (g, fr)).1.edges,
        (e.tgt = cur ∧ e.src ∈ cits) ∨ e ∈ g.edges := by
  intro cits
  induction cits with
  | nil =>
    intro g fr e he
    right
    simpa [expandCitations] using he
  | cons cit cits ih =>
    intro g fr e he
    rw [expandCitations_cons] at he
    by_cases hlt : proc.length < MAX_ARTICLES
    · rw [if_pos hlt] at he
      have hsplit :
          (e.tgt = cur ∧ e.src ∈ cits) ∨ e ∈ (g.addEdge cit cur "cited_by").edges := by
        by_cases hm : proc.contains cit
        · rw [if_pos hm] at he
          exact ih _ _ e he
        · rw [if_neg hm] at he
          exact ih _ _ e he
      rcases hsplit with ⟨h1, h2⟩ | hmem
      · exact Or.inl ⟨h1, List.mem_cons_of_mem _ h2⟩
      · rcases addEdge_mem _ _ _ _ e hmem with rfl | hg
        · exact Or.inl ⟨rfl, List.mem_cons_self _ _⟩
        · exact Or.inr hg
    · rw [if_neg hlt] at he
      rcases ih _ _ e he with ⟨h1, h2⟩ | hg
      · exact Or.inl ⟨h1, List.mem_cons_of_mem _ h2⟩
      · exact Or.inr hg

theorem contains_iff_mem {α : Type} [BEq α] [LawfulBEq α] {l : List α}
    {a : α} : l.contains a = true ↔ a ∈ l :=
  List.elem_iff

theorem processNode_none (fetch : Fetch) (sd c : String)
    (rest : List (String × Nat)) (s : LoopState) (hfc : fetch c = none) :
    processNode fetch sd c rest s =
      { entry := { s.entry with
                   processedArticles := s.entry.processedArticles + 1 },
        processed := c :: s.processed,
        frontier := rest } := by
  unfold processNode
  rw [hfc]

theorem processNode_some_seed (fetch : Fetch) (sd : String)
    (rest : List (String × Nat)) (s : LoopState) (det : Option Article)
    (refs cits : List String) (hfc : fetch sd = some (det, refs, cits)) :
    processNode fetch sd sd rest s =
      { entry := { s.entry with
                   processedArticles := s.entry.processedArticles + 1,
                   graph := (expandCitations sd (sd :: s.processed) cits
                     (expandReferences sd (sd :: s.processed) refs
                       (s.entry.graph.addNode sd det, rest))).1,
                   totalArticles := (expandCitations sd (sd :: s.processed) cits
                     (expandReferences sd (sd :: s.processed) refs
                       (s.entry.graph.addNode sd det, rest))).1.nodes.length },
        processed := sd :: s.processed,
        frontier := (expandCitations sd (sd :: s.processed) cits
          (expandReferences sd (sd :: s.processed) refs
            (s.entry.graph.addNode sd det, rest))).2 } := by
  unfold processNode
  rw [hfc]
  dsimp only
  rw [if_pos (by simp)]

theorem processNode_some_ne (fetch : Fetch) (sd c : String)
    (rest : List (String × Nat)) (s : LoopState) (det : Option Article)
    (refs cits : List String) (hne : (c == sd) = false)
    (hfc : fetch c = some (det, refs, cits)) :
    processNode fetch sd c rest s =
      { entry := { s.entry with
                   processedArticles := s.entry.processedArticles + 1,
                   graph := s.entry.graph.addNode c det,
                   totalArticles := (s.entry.graph.addNode c det).nodes.length },
        processed := c :: s.processed,
        frontier := rest } := by
  unfold processNode
  rw [hfc]
  dsimp only
  rw [if_neg (by simp [hne])]

/-- Once the seed is marked processed, the rest of the loop never touches
the edge set and only consumes the frontier (non-seed nodes contribute no
edges and no frontier entries). -/
theorem buildLoop_frozen (fetch : Fetch) (sd : String) :
    ∀ (fuel : Nat) (s : LoopState), sd ∈ s.processed →
      (buildLoop fetch sd fuel s).entry.graph.edges = s.entry.graph.edges ∧
      (buildLoop fetch sd fuel s).frontier.IsSuffix s.frontier := by
  intro fuel
  induction fuel with
  | zero => intro s _; exact ⟨rfl, List.suffix_refl _⟩
  | succ n ih =>
    intro s h
    cases hs : buildStepOpt fetch sd s with
    | none =>
      simp [buildLoop, hs]
    | some s' =>
      simp only [buildLoop, hs]
      obtain ⟨c, dep, rest, hfr, hlt, hcases⟩ := buildStepOpt_some_cases hs
      rcases hcases with ⟨hc, rfl⟩ | ⟨hc, rfl⟩
      · obtain ⟨h1, h2⟩ := ih { s with frontier := rest } h
        refine ⟨h1, h2.trans ?_⟩
        rw [hfr]
        exact List.suffix_cons _ _
      · have hcne : (c == sd) = false := by
          apply bool_eq_false
          intro hcs
          have hceq : c = sd := beq_iff_eq.mp hcs
          rw [hceq] at hc
          rw [contains_iff_mem.mpr h] at hc
          simp at hc
        have hmem : sd ∈ (processNode fetch sd c rest s).processed := by
          rw [processNode_processed]
          exact List.mem_cons_of_mem _ h
        obtain ⟨h1, h2⟩ := ih (processNode fetch sd c rest s) hmem
        constructor
        · rw [h1, processNode_edges_of_ne _ _ _ _ _ hcne]
        · rw [processNode_frontier_of_ne _ _ _ _ _ hcne] at h2
          refine h2.trans ?_
          rw [hfr]
          exact List.suffix_cons _ _

/-- Each executed loop iteration strictly decreases the measure "frontier
length plus pending seed appends", which shows `buildFuel` is enough fuel:
the fuelled loop behaves as the source's unbounded `while` loop. -/
theorem buildStepOpt_measure {fetch : Fetch} {sd : String} {s s' : LoopState}
    (h : buildStepOpt fetch sd s = some s') :
    s'.frontier.length + (if sd ∈ s'.processed then 0 else seedCount fetch sd) <
      s.frontier.length + (if sd ∈ s.processed then 0 else seedCount fetch sd) := by
  obtain ⟨c, dep, rest, hfr, hlt, hcases⟩ := buildStepOpt_some_cases h
  have hifmono : ∀ (p : List String),
      (if sd ∈ c :: p then 0 else seedCount fetch sd) ≤
        (if sd ∈ p then 0 else seedCount fetch sd) := by
    intro p
    by_cases hp : sd ∈ p
    · rw [if_pos hp, if_pos (List.mem_cons_of_mem _ hp)]
    · rw [if_neg hp]
      by_cases hcp : sd ∈ c :: p
      · rw [if_pos hcp]
        omega
      · rw [if_neg hcp]
  rcases hcases with ⟨hc, rfl⟩ | ⟨hc, rfl⟩
  · rw [hfr]
    simp only [List.length_cons]
    omega
  · have hcmem : c ∉ s.processed := fun hmem => by
      rw [contains_iff_mem.mpr hmem] at hc
      simp at hc
    cases hfc : fetch c with
    | none =>
      rw [processNode_none _ _ _ _ _ hfc]
      dsimp only
      have := hifmono s.processed
      rw [hfr]
      simp only [List.length_cons]
      omega
    | some val =>
      obtain ⟨det, refs, cits⟩ := val
      by_cases hcs : (c == sd) = true
      · have hceq : c = sd := beq_iff_eq.mp hcs
        rw [hceq] at hfc hcmem hfr
        rw [hceq]
        rw [processNode_some_seed _ _ _ _ _ _ _ hfc]
        dsimp only
        rw [if_pos (List.mem_cons_self _ _), if_neg hcmem]
        have hK : seedCount fetch sd = refs.length + cits.length := by
          simp [seedCount, seedRefs, seedCits, hfc]
        have hfr1 := expandReferences_frontier_le sd (sd :: s.processed) refs
          (s.entry.graph.addNode sd det) rest
        have hfr2 := expandCitations_frontier_le sd (sd :: s.processed) cits
          (expandReferences sd (sd :: s.processed) refs
            (s.entry.graph.addNode sd det, rest)).1
          (expandReferences sd (sd :: s.processed) refs
            (s.entry.graph.addNode sd det, rest)).2
        rw [Prod.mk.eta] at hfr2
        rw [hfr]
        simp only [List.length_cons]
        omega
      · have hcne : (c == sd) = false := bool_eq_false hcs
        rw [processNode_some_ne _ _ _ _ _ _ _ _ hcne hfc]
        dsimp only
        have := hifmono s.processed
        rw [hfr]
        simp only [List.length_cons]
        omega

/-- With enough fuel the loop runs to a state where the `while` guard
fails (empty frontier, or the processed count has reached the budget). -/
theorem buildLoop_guard_none (fetch : Fetch) (sd : String) :
    ∀ (fuel : Nat) (s : LoopState),
      s.frontier.length +
          (if sd ∈ s.processed then 0 else seedCount fetch sd) ≤ fuel →
      buildStepOpt fetch sd (buildLoop fetch sd fuel s) = none := by
  intro fuel
  induction fuel with
  | zero =>
    intro s h
    have hlen : s.frontier.length = 0 := by omega
    have hnil : s.frontier = [] := List.length_eq_zero.mp hlen
    show buildStepOpt fetch sd s = none
    unfold buildStepOpt
    rw [hnil]
  | succ n ih =>
    intro s h
    cases hs : buildStepOpt fetch sd s with
    | none =>
      simp only [buildLoop, hs]
    | some s' =>
      simp only [buildLoop, hs]
      exact ih s' (by have := buildStepOpt_measure hs; omega)

/-- The build's fuel really is adequate: at `buildFinalState` the loop
guard has failed, exactly as at the exit of the source's `while` loop. -/
theorem buildFinalState_guard (fetch : Fetch) (e : GraphEntry) :
    buildStepOpt fetch e.seed (buildFinalState fetch e) = none := by
  apply buildLoop_guard_none
  show (buildStartState e).frontier.length + _ ≤ buildFuel fetch e.seed
  unfold buildStartState buildFuel
  dsimp only
  rw [if_neg (List.not_mem_nil _)]
  simp only [List.length_cons, List.length_nil]
  omega

/-- The first executed iteration of any build pops and processes the
seed. -/
theorem buildStepOpt_start (fetch : Fetch) (e : GraphEntry) :
    buildStepOpt fetch e.seed (buildStartState e) =
      some (processNode fetch e.seed e.seed [] (buildStartState e)) := by
  unfold buildStepOpt buildStartState
  dsimp only
  rw [if_pos (by decide), if_neg (by simp)]

theorem buildFinalState_eq (fetch : Fetch) (e : GraphEntry) :
    buildFinalState fetch e =
      buildLoop fetch e.seed (seedCount fetch e.seed)
        (processNode fetch e.seed e.seed [] (buildStartState e)) := by
  unfold buildFinalState buildFuel
  simp only [buildLoop, buildStepOpt_start]

/-- The final edge set of a build from a fresh `create_graph` entry: empty
when the seed fetch failed, else exactly the seed's reference and citation
expansion over the just-attached seed node (non-seed iterations never touch
edges, by `buildLoop_frozen`). -/
theorem buildFinal_edges (fetch : Fetch) (seed : String) :
    (buildFinalState fetch (createEntry seed)).entry.graph.edges =
      (match fetch seed with
       | none => ([] : List Edge)
       | some (det, refs, cits) =>
         (expandCitations seed [seed] cits
           (expandReferences seed [seed] refs
             (DiGraph.empty.addNode seed det,
              ([] : List (String × Nat))))).1.edges) := by
  rw [buildFinalState_eq]
  rw [show (createEntry seed).seed = seed from rfl]
  cases hfc : fetch seed with
  | none =>
    rw [processNode_none _ _ _ _ _ hfc]
    rw [(buildLoop_frozen fetch seed (seedCount fetch seed) _
          (List.mem_cons_self _ _)).1]
    rfl
  | some val =>
    obtain ⟨det, refs, cits⟩ := val
    rw [processNode_some_seed _ _ _ _ _ _ _ hfc]
    rw [(buildLoop_frozen fetch seed (seedCount fetch seed) _
          (List.mem_cons_self _ _)).1]
    rfl

theorem buildGraph_projections (fetch : Fetch) (e : GraphEntry) (d : Nat) :
    (buildGraph fetch e d).1.processedArticles =
        (buildFinalState fetch e).entry.processedArticles ∧
      (buildGraph fetch e d).1.totalArticles =
        (buildFinalState fetch e).entry.totalArticles ∧
      (buildGraph fetch e d).1.graph = (buildFinalState fetch e).entry.graph := by
  unfold buildGraph
  dsimp only
  split <;> exact ⟨rfl, rfl, rfl⟩

theorem buildGraph_status_eq (fetch : Fetch) (e : GraphEntry) (d : Nat) :
    (buildGraph fetch e d).1.status =
      (if MAX_ARTICLES ≤ (buildFinalState fetch e).processed.length then
        Status.completedWithLimit
      else Status.completed) := by
  unfold buildGraph
  dsimp only
  split
  · rfl
  · rfl

theorem buildStepOpt_processed_le {fetch : Fetch} {sd : String}
    {s s' : LoopState} (h : buildStepOpt fetch sd s = some s') :
    s'.processed.length ≤ MAX_ARTICLES := by
  obtain ⟨c, dep, rest, hfr, hlt, hcases⟩ := buildStepOpt_some_cases h
  rcases hcases with ⟨hc, rfl⟩ | ⟨hc, rfl⟩
  · exact Nat.le_of_lt hlt
  · rw [processNode_processed]
    simp only [List.length_cons]
    omega

theorem buildTraceOf_processed_le (fetch : Fetch) (e : GraphEntry) :
    ∀ st ∈ buildTraceOf fetch e, st.processed.length ≤ MAX_ARTICLES := by
  exact buildTrace_inv fetch e.seed
    (fun st => st.processed.length ≤ MAX_ARTICLES)
    (fun s s' hstep _ => buildStepOpt_processed_le hstep)
    (buildFuel fetch e.seed) (buildStartState e) (by simp [buildStartState])

theorem buildFinalState_processed_le (fetch : Fetch) (e : GraphEntry) :
    (buildFinalState fetch e).processed.length ≤ MAX_ARTICLES := by
  exact buildLoop_inv fetch e.seed
    (fun st => st.processed.length ≤ MAX_ARTICLES)
    (fun s s' hstep _ => buildStepOpt_processed_le hstep)
    (buildFuel fetch e.seed) (buildStartState e) (by simp [buildStartState])

theorem buildStepOpt_pa {fetch : Fetch} {sd : String} {s s' : LoopState}
    (h : buildStepOpt fetch sd s = some s') :
    s'.entry.processedArticles + s.processed.length =
      s.entry.processedArticles + s'.processed.length := by
  obtain ⟨c, dep, rest, hfr, hlt, hcases⟩ := buildStepOpt_some_cases h
  rcases hcases with ⟨hc, rfl⟩ | ⟨hc, rfl⟩
  · rfl
  · rw [processNode_processed, processNode_processedArticles]
    simp only [List.length_cons]
    omega

theorem buildLoop_pa (fetch : Fetch) (sd : String) :
    ∀ (fuel : Nat) (s : LoopState),
      (buildLoop fetch sd fuel s).entry.processedArticles +
          s.processed.length =
        s.entry.processedArticles +
          (buildLoop fetch sd fuel s).processed.length := by
  intro fuel
  induction fuel with
  | zero => intro s; rfl
  | succ n ih =>
    intro s
    cases hs : buildStepOpt fetch sd s with
    | none => simp only [buildLoop, hs]
    | some s' =>
      simp only [buildLoop, hs]
      have h1 := buildStepOpt_pa hs
      have h2 := ih s'
      omega

theorem buildStepOpt_nodes_inv {fetch : Fetch} {sd : String}
    {s s' : LoopState} (h : buildStepOpt fetch sd s = some s')
    (hn : s.entry.graph.nodes.length ≤ s.processed.length +
      (if sd ∈ s.processed then seedCount fetch sd else 0))
    (ht : s.entry.totalArticles ≤ s.entry.graph.nodes.length) :
    s'.entry.graph.nodes.length ≤ s'.processed.length +
        (if sd ∈ s'.processed then seedCount fetch sd else 0) ∧
      s'.entry.totalArticles ≤ s'.entry.graph.nodes.length := by
  obtain ⟨c, dep, rest, hfr, hlt, hcases⟩ := buildStepOpt_some_cases h
  have hifmono : ∀ (p : List String),
      (if sd ∈ p then seedCount fetch sd else 0) ≤
        (if sd ∈ c :: p then seedCount fetch sd else 0) := by
    intro p
    by_cases hp : sd ∈ p
    · rw [if_pos hp, if_pos (List.mem_cons_of_mem _ hp)]
    · rw [if_neg hp]
      exact Nat.zero_le _
  rcases hcases with ⟨hc, rfl⟩ | ⟨hc, rfl⟩
  · exact ⟨hn, ht⟩
  · have hcmem : c ∉ s.processed := fun hmem => by
      rw [contains_iff_mem.mpr hmem] at hc
      simp at hc
    cases hfc : fetch c with
    | none =>
      rw [processNode_none _ _ _ _ _ hfc]
      dsimp only
      refine ⟨?_, ht⟩
      have := hifmono s.processed
      simp only [List.length_cons]
      omega
    | some val =>
      obtain ⟨det, refs, cits⟩ := val
      by_cases hcs : (c == sd) = true
      · have hceq : c = sd := beq_iff_eq.mp hcs
        rw [hceq] at hfc hcmem
        rw [hceq]
        rw [processNode_some_seed _ _ _ _ _ _ _ hfc]
        dsimp only
        rw [if_pos (List.mem_cons_self _ _)]
        rw [if_neg hcmem] at hn
        have hK : seedCount fetch sd = refs.length + cits.length := by
          simp [seedCount, seedRefs, seedCits, hfc]
        have h0 : (s.entry.graph.addNode sd det).nodes.length ≤
            s.entry.graph.nodes.length + 1 := addNode_nodes_length_le _ _ _
        have h1 := expandReferences_nodes_le sd (sd :: s.processed) refs
          (s.entry.graph.addNode sd det) rest (hasNode_addNode_self _ _ _)
        have h2 := expandCitations_nodes_le sd (sd :: s.processed) cits
          (expandReferences sd (sd :: s.processed) refs
            (s.entry.graph.addNode sd det, rest)).1
          (expandReferences sd (sd :: s.processed) refs
            (s.entry.graph.addNode sd det, rest)).2 h1.1
        rw [Prod.mk.eta] at h2
        refine ⟨?_, Nat.le_refl _⟩
        have h12 := h1.2
        have h22 := h2.2
        simp only [List.length_cons]
        omega
      · have hcne : (c == sd) = false := bool_eq_false hcs
        rw [processNode_some_ne _ _ _ _ _ _ _ _ hcne hfc]
        dsimp only
        refine ⟨?_, Nat.le_refl _⟩
        have hmono := hifmono s.processed
        have h0 : (s.entry.graph.addNode c det).nodes.length ≤
            s.entry.graph.nodes.length + 1 := addNode_nodes_length_le _ _ _
        simp only [List.length_cons]
        omega

theorem buildFinal_total_le (fetch : Fetch) (seed : String) :
    (buildFinalState fetch (createEntry seed)).entry.graph.nodes.length ≤
        MAX_ARTICLES + seedCount fetch seed ∧
      (buildFinalState fetch (createEntry seed)).entry.totalArticles ≤
        MAX_ARTICLES + seedCount fetch seed := by
  have hinv := buildLoop_inv fetch (createEntry seed).seed
    (fun st => st.entry.graph.nodes.length ≤ st.processed.length +
        (if (createEntry seed).seed ∈ st.processed then
          seedCount fetch (createEntry seed).seed else 0) ∧
      st.entry.totalArticles ≤ st.entry.graph.nodes.length)
    (fun s s' hstep hp => buildStepOpt_nodes_inv hstep hp.1 hp.2)
    (buildFuel fetch (createEntry seed).seed)
    (buildStartState (createEntry seed))
    (by constructor <;> simp [buildStartState, createEntry, DiGraph.empty])
  have hple := buildFinalState_processed_le fetch (createEntry seed)
  obtain ⟨h1, h2⟩ := hinv
  have hif : (if (createEntry seed).seed ∈
        (buildFinalState fetch (createEntry seed)).processed then
      seedCount fetch (createEntry seed).seed else 0) ≤
      seedCount fetch (createEntry seed).seed := by
    split
    · exact Nat.le_refl _
    · exact Nat.zero_le _
  have hfin : buildFinalState fetch (createEntry seed) =
      buildLoop fetch seed (buildFuel fetch seed)
        (buildStartState (createEntry seed)) := rfl
  have hcs : (createEntry seed).seed = seed := rfl
  simp only [hcs] at h1 h2 hif
  rw [hfin] at hple hif ⊢
  constructor
  · omega
  · omega

theorem buildStepOpt_closed {fetch : Fetch} {sd : String} {s s' : LoopState}
    (h : buildStepOpt fetch sd s = some s')
    (hc8 : edgeClosedB s.entry.graph = true) :
    edgeClosedB s'.entry.graph = true := by
  obtain ⟨c, dep, rest, hfr, hlt, hcases⟩ := buildStepOpt_some_cases h
  rcases hcases with ⟨hc, rfl⟩ | ⟨hc, rfl⟩
  · exact hc8
  · cases hfc : fetch c with
    | none =>
      rw [processNode_none _ _ _ _ _ hfc]
      exact hc8
    | some val =>
      obtain ⟨det, refs, cits⟩ := val
      by_cases hcs : (c == sd) = true
      · have hceq : c = sd := beq_iff_eq.mp hcs
        rw [hceq] at hfc
        rw [hceq]
        rw [processNode_some_seed _ _ _ _ _ _ _ hfc]
        dsimp only
        have hbase : edgeClosedB (s.entry.graph.addNode sd det) = true :=
          edgeClosedB_addNode _ _ _ hc8
        have hrefs := expandReferences_closed sd (sd :: s.processed) refs
          (s.entry.graph.addNode sd det) rest hbase
        have hcits := expandCitations_closed sd (sd :: s.processed) cits
          (expandReferences sd (sd :: s.processed) refs
            (s.entry.graph.addNode sd det, rest)).1
          (expandReferences sd (sd :: s.processed) refs
            (s.entry.graph.addNode sd det, rest)).2 hrefs
        rw [Prod.mk.eta] at hcits
        exact hcits
      · have hcne : (c == sd) = false := bool_eq_false hcs
        rw [processNode_some_ne _ _ _ _ _ _ _ _ hcne hfc]
        exact edgeClosedB_addNode _ _ _ hc8

theorem buildGraph_closed (fetch : Fetch) (e : GraphEntry) (d : Nat)
    (h : edgeClosedB e.graph = true) :
    edgeClosedB (buildGraph fetch e d).1.graph = true := by
  rw [(buildGraph_projections fetch e d).2.2]
  exact buildLoop_inv fetch e.seed
    (fun st => edgeClosedB st.entry.graph = true)
    (fun s s' hstep hp => buildStepOpt_closed hstep hp)
    (buildFuel fetch e.seed) (buildStartState e) h

theorem find_set_self (s : Store) (graphId : String) (e : GraphEntry) :
    Store.find (Store.set s graphId e) graphId = some e := by
  unfold Store.set Store.find
  split
  · next hany =>
    induction s with
    | nil => simp at hany
    | cons p ps ih =>
      by_cases hp : (p.1 == graphId) = true
      · simp only [List.map_cons, if_pos hp]
        rw [find?_cons_pos' (fun (q : String × GraphEntry) => q.1 == graphId)
              (graphId, e) _ (by simp)]
        rfl
      · simp only [List.map_cons, if_neg hp]
        rw [find?_cons_neg' (fun (q : String × GraphEntry) => q.1 == graphId)
              p _ (bool_eq_false hp)]
        apply ih
        simp only [List.any_cons, Bool.or_eq_true] at hany
        rcases hany with hany | hany
        · exact absurd hany hp
        · exact hany
  · next hany =>
    rw [find?_append_or]
    have hnone : (List.find? (fun (q : String × GraphEntry) => q.1 == graphId) s) = none := by
      rw [List.find?_eq_none]
      intro a ha hpa
      rw [List.any_eq_true] at hany
      exact hany ⟨a, ha, hpa⟩
    rw [hnone]
    rw [find?_cons_pos' (fun (q : String × GraphEntry) => q.1 == graphId)
          (graphId, e) [] (by simp)]
    rfl

theorem edgeRel_congr {g1 g2 : DiGraph} (h : g1.edges = g2.edges)
    (u v : String) : g1.edgeRel u v = g2.edgeRel u v := by
  unfold DiGraph.edgeRel
  rw [h]

theorem makeRequest_exhausted (t : Nat → HttpOutcome) (r : Nat)
    (hr : ¬(r < MAX_RETRIES)) (h : t r = .transportError) :
    makeRequest t r = none := by
  unfold makeRequest
  cases hk : MAX_RETRIES + 1 - r with
  | zero => rfl
  | succ k =>
    simp only [makeRequestAux]
    rw [h]
    dsimp only
    rw [if_neg hr]

/-! ### Lemmas about the retrying client -/

theorem makeRequest_timeout (t : Nat → HttpOutcome) (r : Nat)
    (h : t r = .timeout) : makeRequest t r = none := by
  unfold makeRequest
  cases hk : MAX_RETRIES + 1 - r with
  | zero => rfl
  | succ k =>
    simp only [makeRequestAux]
    rw [h]

theorem makeRequest_retry_transport (t : Nat → HttpOutcome) (r : Nat)
    (hr : r < MAX_RETRIES) (h : t r = .transportError) :
    makeRequest t r = makeRequest t (r + 1) := by
  unfold makeRequest
  have hk : MAX_RETRIES + 1 - r = (MAX_RETRIES + 1 - (r + 1)) + 1 := by omega
  rw [hk]
  simp only [makeRequestAux]
  rw [h]
  dsimp only
  rw [if_pos hr]

theorem makeRequest_retry_rateLimited (t : Nat → HttpOutcome) (r : Nat)
    (hr : r < MAX_RETRIES) (h : t r = .rateLimited) :
    makeRequest t r = makeRequest t (r + 1) := by
  unfold makeRequest
  have hk : MAX_RETRIES + 1 - r = (MAX_RETRIES + 1 - (r + 1)) + 1 := by omega
  rw [hk]
  simp only [makeRequestAux]
  rw [h]
  dsimp only
  rw [if_pos hr]

/-! ### Claim theorems -/

/-- C3 counterexample: a request whose first transport attempt times out
returns `None` immediately — whereas the same scenario with a non-timeout
transport error is retried and succeeds on the second attempt.  The
`except asyncio.TimeoutError` clause returns `None` before the generic
retrying `except` clause can run. -/
theorem c3_timeout_counterexample :
    makeRequest transportTimeoutThenOk 0 = none ∧
      makeRequest transportErrorThenOk 0 = some "ok" := by
  constructor <;> rfl

/-- C3 (corrected): the retry-with-backoff policy applies to rate-limit
responses and to non-timeout transport errors (retrying while the attempt
counter is below `MAX_RETRIES`, `None` after exhaustion), but a timeout
returns `None` immediately with no retry. -/
theorem c3_retry_policy :
    (∀ (t : Nat → HttpOutcome) (r : Nat), t r = .timeout →
      makeRequest t r = none) ∧
    (∀ (t : Nat → HttpOutcome) (r : Nat), r < MAX_RETRIES →
      t r = .transportError → makeRequest t r = makeRequest t (r + 1)) ∧
    (∀ (t : Nat → HttpOutcome) (r : Nat), r < MAX_RETRIES →
      t r = .rateLimited → makeRequest t r = makeRequest t (r + 1)) ∧
    (∀ (t : Nat → HttpOutcome) (r : Nat), ¬(r < MAX_RETRIES) →
      t r = .transportError → makeRequest t r = none) :=
  ⟨makeRequest_timeout, makeRequest_retry_transport,
   makeRequest_retry_rateLimited, makeRequest_exhausted⟩

/-- C3 witness: the policy evaluated at concrete transports. -/
theorem c3_retry_policy_witness :
    makeRequest transportTimeoutThenOk 0 = none ∧
      makeRequest transportErrorThenOk 0 = makeRequest transportErrorThenOk 1 :=
  ⟨c3_retry_policy.1 transportTimeoutThenOk 0 rfl,
   c3_retry_policy.2.1 transportErrorThenOk 0 (by decide) rfl⟩

/-- C4 counterexample: inserting `(a, b, cites)` and then
`(a, b, cited_by)` leaves ONE edge carrying the second type — the two
insertions for the same ordered pair with different type tags are not both
retained, contrary to the claim. -/
theorem c4_counterexample :
    ((DiGraph.empty.addEdge "a" "b" "cites").addEdge "a" "b" "cited_by").edges =
      [⟨"a", "b", "cited_by"⟩] := by
  rfl

/-- C4 (corrected): edge insertion is idempotent per
`(source, target, type)`; but a second insertion on the same ordered pair
with a different type does NOT create a second edge — the edge count is
unchanged and the stored type becomes the most recent one (networkx
`DiGraph` holds at most one edge per ordered pair). -/
theorem c4_edge_insertion (g : DiGraph) (u v r r2 : String) :
    (g.addEdge u v r).addEdge u v r = g.addEdge u v r ∧
      ((g.addEdge u v r).addEdge u v r2).edges.length =
        (g.addEdge u v r).edges.length ∧
      ((g.addEdge u v r).addEdge u v r2).edgeRel u v = some r2 :=
  ⟨addEdge_self_idem g u v r, addEdge_overwrite_length g u v r r2,
   edgeRel_addEdge_self (g.addEdge u v r) u v r2⟩

/-- C9: the four query operations all return `None` (the uniform
"not found" outcome) for a graph identifier absent from the store. -/
theorem c9_not_found_uniform (s : Store) (graphId nodeId : String)
    (h : Store.find s graphId = none) :
    getGraphStatus s graphId = none ∧
      getGraphData s graphId = none ∧
      getGraphAnalytics s graphId = none ∧
      getNodeAnalytics s graphId nodeId = none := by
  unfold getGraphStatus getGraphData getGraphAnalytics getNodeAnalytics
  rw [h]
  exact ⟨rfl, rfl, rfl, rfl⟩

/-- C9 witness: the empty store. -/
theorem c9_not_found_uniform_witness :
    getGraphStatus ([] : Store) "g" = none ∧
      getGraphData ([] : Store) "g" = none ∧
      getGraphAnalytics ([] : Store) "g" = none ∧
      getNodeAnalytics ([] : Store) "g" "n" = none :=
  c9_not_found_uniform [] "g" "n" rfl

/-- C10: `create_graph` on an identifier already in the store does not
fail: it silently replaces the stored graph with a fresh empty one in
status `initializing` (nodes, edges, counts and any terminal status of the
previous graph are discarded) and returns the `initializing` summary. -/
theorem c10_create_overwrites (s : Store) (graphId seedPmid : String)
    (g : GraphEntry) (h : Store.find s graphId = some g) :
    (createGraph s graphId seedPmid).2 =
        ⟨graphId, seedPmid, Status.initializing⟩ ∧
      Store.find (createGraph s graphId seedPmid).1 graphId =
        some (createEntry seedPmid) ∧
      (createEntry seedPmid).status = Status.initializing ∧
      (createEntry seedPmid).graph = DiGraph.empty ∧
      (createEntry seedPmid).totalArticles = 0 ∧
      (createEntry seedPmid).processedArticles = 0 :=
  ⟨rfl, find_set_self s graphId (createEntry seedPmid), rfl, rfl, rfl, rfl⟩

/-- C10 witness: a store already holding a completed graph under the id. -/
theorem c10_create_overwrites_witness :
    (createGraph [("g", (buildGraph fetchEmpty (createEntry "1") 3).1)] "g" "2").2 =
        ⟨"g", "2", Status.initializing⟩ ∧
      Store.find
        (createGraph [("g", (buildGraph fetchEmpty (createEntry "1") 3).1)] "g" "2").1
        "g" = some (createEntry "2") :=
  ⟨(c10_create_overwrites _ "g" "2" _ (by rfl)).1,
   (c10_create_overwrites [("g", (buildGraph fetchEmpty (createEntry "1") 3).1)]
      "g" "2" _ (by rfl)).2.1⟩

set_option maxRecDepth 20000 in
/-- C1 counterexample: a build whose seed has exactly 49 references
processes exactly `MAX_ARTICLES` identifiers and empties the frontier at
the same moment; the code still sets `completed_with_limit`, so the
claimed "... and the frontier was non-empty at that point" direction of
the iff is false. -/
theorem c1_limit_status_counterexample :
    (buildGraph fetch49 (createEntry "0") 3).1.status =
        Status.completedWithLimit ∧
      (buildFinalState fetch49 (createEntry "0")).processed.length =
        MAX_ARTICLES ∧
      (buildFinalState fetch49 (createEntry "0")).frontier = [] ∧
      ¬((buildGraph fetch49 (createEntry "0") 3).1.status =
          Status.completedWithLimit ↔
        ((buildFinalState fetch49 (createEntry "0")).processed.length =
            MAX_ARTICLES ∧
          (buildFinalState fetch49 (createEntry "0")).frontier ≠ [])) := by
  refine ⟨by decide, by decide, by decide, ?_⟩
  intro hiff
  have h1 := hiff.mp (by decide)
  exact h1.2 (by decide)

/-- C1 (corrected): the count of processed identifiers never exceeds
`MAX_ARTICLES` at any loop-head point of the build, and the terminal
status is `completed_with_limit` iff the processed count equals
`MAX_ARTICLES` at loop exit — regardless of whether the frontier was
empty there — and `completed` otherwise. -/
theorem c1_processed_bound_and_limit_status (fetch : Fetch) (e : GraphEntry)
    (d : Nat) :
    (∀ st ∈ buildTraceOf fetch e, st.processed.length ≤ MAX_ARTICLES) ∧
      ((buildGraph fetch e d).1.status = Status.completedWithLimit ↔
        (buildFinalState fetch e).processed.length = MAX_ARTICLES) ∧
      ((buildGraph fetch e d).1.status = Status.completed ↔
        (buildFinalState fetch e).processed.length < MAX_ARTICLES) := by
  refine ⟨buildTraceOf_processed_le fetch e, ?_, ?_⟩
  · rw [buildGraph_status_eq]
    have hle := buildFinalState_processed_le fetch e
    by_cases hm : MAX_ARTICLES ≤ (buildFinalState fetch e).processed.length
    · rw [if_pos hm]
      exact ⟨fun _ => by omega, fun _ => rfl⟩
    · rw [if_neg hm]
      exact ⟨fun hst => absurd hst (by decide), fun heq => by omega⟩
  · rw [buildGraph_status_eq]
    by_cases hm : MAX_ARTICLES ≤ (buildFinalState fetch e).processed.length
    · rw [if_pos hm]
      exact ⟨fun hst => absurd hst (by decide), fun hlt => by omega⟩
    · rw [if_neg hm]
      exact ⟨fun _ => by omega, fun _ => rfl⟩

/-- C1 witness: the theorem applied to a concrete build. -/
theorem c1_processed_bound_witness :
    (∀ st ∈ buildTraceOf fetchEmpty (createEntry "1"),
        st.processed.length ≤ MAX_ARTICLES) ∧
      ((buildGraph fetchEmpty (createEntry "1") 3).1.status =
          Status.completedWithLimit ↔
        (buildFinalState fetchEmpty (createEntry "1")).processed.length =
          MAX_ARTICLES) ∧
      ((buildGraph fetchEmpty (createEntry "1") 3).1.status =
          Status.completed ↔
        (buildFinalState fetchEmpty (createEntry "1")).processed.length <
          MAX_ARTICLES) :=
  c1_processed_bound_and_limit_status fetchEmpty (createEntry "1") 3

set_option maxRecDepth 20000 in
/-- C2 counterexample: a seed with 51 fetched references yields a graph of
52 nodes — `total_articles` exceeds `MAX_ARTICLES = 50`, because the
expansion guard compares the processed count (which is 1 while the seed is
being expanded), not the node count. -/
theorem c2_node_budget_counterexample :
    (buildGraph fetch51 (createEntry "0") 3).1.totalArticles = 52 ∧
      MAX_ARTICLES < 52 := by
  constructor
  · decide
  · decide

/-- C2 (corrected): the budget caps the number of processed identifiers,
not the node count: for a build from a fresh graph, the node count and
`total_articles` are bounded only by `MAX_ARTICLES` plus the number of the
seed's fetched references and citations. -/
theorem c2_total_articles_bound (fetch : Fetch) (seed : String) (d : Nat) :
    (buildGraph fetch (createEntry seed) d).1.graph.nodes.length ≤
        MAX_ARTICLES + seedCount fetch seed ∧
      (buildGraph fetch (createEntry seed) d).1.totalArticles ≤
        MAX_ARTICLES + seedCount fetch seed := by
  constructor
  · rw [(buildGraph_projections fetch (createEntry seed) d).2.2]
    exact (buildFinal_total_le fetch seed).1
  · rw [(buildGraph_projections fetch (createEntry seed) d).2.1]
    exact (buildFinal_total_le fetch seed).2

set_option maxRecDepth 20000 in
/-- C6 counterexample: a graph built to terminal status `completed` is not
protected against re-building — invoking the builder again moves it back
through `building` and re-runs the expansion, doubling
`processed_articles`. -/
theorem c6_rebuild_counterexample :
    (buildGraph fetchEmpty (createEntry "1") 3).1.status =
        Status.completed ∧
      (buildGraph fetchEmpty (createEntry "1") 3).1.processedArticles = 1 ∧
      (buildStartState
          (buildGraph fetchEmpty (createEntry "1") 3).1).entry.status =
        Status.building ∧
      (buildGraph fetchEmpty
          (buildGraph fetchEmpty (createEntry "1") 3).1 3).1.processedArticles
        = 2 := by
  refine ⟨by decide, by decide, by decide, by decide⟩

/-- C6 (corrected): `build_graph` performs no terminal-status check.
Invoked on ANY stored graph — terminal or not — it sets the status to
`building` and re-runs the whole expansion: `processed_articles`
accumulates by the number of identifiers processed in the new pass, and
the status is then recomputed to a terminal value. -/
theorem c6_rebuild_behavior (fetch : Fetch) (e : GraphEntry) (d : Nat) :
    (buildStartState e).entry.status = Status.building ∧
      (buildGraph fetch e d).1.processedArticles =
        e.processedArticles + (buildFinalState fetch e).processed.length ∧
      ((buildGraph fetch e d).1.status = Status.completed ∨
        (buildGraph fetch e d).1.status = Status.completedWithLimit) := by
  refine ⟨rfl, ?_, ?_⟩
  · rw [(buildGraph_projections fetch e d).1]
    have hpa := buildLoop_pa fetch e.seed (buildFuel fetch e.seed)
      (buildStartState e)
    have h0 : (buildStartState e).processed.length = 0 := rfl
    have h1 : (buildStartState e).entry.processedArticles =
        e.processedArticles := rfl
    unfold buildFinalState
    rw [h0, h1] at hpa
    omega
  · rw [buildGraph_status_eq]
    split
    · exact Or.inr rfl
    · exact Or.inl rfl

/-- C5 counterexample: on a one-node zero-edge graph the path analysis
reports diameter `0` and average shortest path `0`, not null — a one-node
graph is trivially strongly connected, so the direct branch of
`_analyze_paths` computes both (networkx returns `0` for each on the
trivial graph).  Only the radius is null. -/
theorem c5_singleton_counterexample :
    analyzePaths (DiGraph.mk [("1", none)] []) =
        some ⟨some 0, some 0, [], none⟩ ∧
      ¬((analyzePaths (DiGraph.mk [("1", none)] [])).map
          (fun p => p.diameter) = some none) ∧
      ¬((analyzePaths (DiGraph.mk [("1", none)] [])).map
          (fun p => p.averageShortestPath) = some none) := by
  refine ⟨by decide, by decide, by decide⟩

/-- C5 (corrected): for every graph with exactly one node and zero edges,
`analyze` returns null for the radius but ZERO (not null) for the diameter
and the average shortest path, and zero for the density and the global
clustering coefficient; none of the computations errors. -/
theorem c5_singleton_analytics (v : String) (d : Option Article) :
    analyzePaths (DiGraph.mk [(v, d)] []) =
        some ⟨some 0, some 0, [], none⟩ ∧
      (getBasicStatistics (DiGraph.mk [(v, d)] [])).map (fun b => b.density) =
        some 0 ∧
      (analyzeClustering (DiGraph.mk [(v, d)] [])).map
        (fun c => c.globalClustering) = some 0 := by
  refine ⟨?_, ?_, ?_⟩
  · simp [analyzePaths, DiGraph.isStronglyConnected, DiGraph.keys,
          DiGraph.averageShortestPath, DiGraph.diameter, DiGraph.eccentricity,
          DiGraph.largestSCC, DiGraph.sccs, DiGraph.sccOf, DiGraph.reachD,
          iterExpand, expandOnce, DiGraph.adjD, DiGraph.distD, List.contains,
          List.filter, List.range, List.range.loop, List.findSome?]
  · simp [getBasicStatistics, DiGraph.density]
  · simp [analyzeClustering, DiGraph.averageClustering, DiGraph.keys,
          DiGraph.localClustering, DiGraph.undirectedNeighbors, DiGraph.adjU,
          List.filter]

/-- C7 counterexample: when the seed lists itself both as a reference and
as a citing work, the `cites` self-loop inserted for the reference is
overwritten by the later `cited_by` insertion (one edge per ordered pair
in a `DiGraph`), so that fetched reference yields no `cites` edge in the
final graph. -/
theorem c7_seed_expansion_counterexample :
    "1" ∈ seedRefs fetchSelfLoop "1" ∧
      (buildGraph fetchSelfLoop (createEntry "1") 3).1.graph.edges =
        [⟨"1", "1", "cited_by"⟩] := by
  refine ⟨by decide, by decide⟩

/-- C7 (corrected): during a build only the seed's relationships produce
edges and frontier entries.  Every fetched reference `r` of the seed
yields the edge `(seed, r)`, tagged `cites` unless `r` is the seed itself
and the seed also appears in its citation list (then the later `cited_by`
insertion overwrites the tag); every fetched citing work `c` yields the
edge `(c, seed)` tagged `cited_by`; every edge of the final graph is of
one of these two shapes; and from any loop state in which the seed is
already processed, the remaining iterations (which process only non-seed
identifiers or skip) add no edges and enqueue nothing — all of this
regardless of the `max_depth` argument. -/
theorem c7_seed_only_expansion (fetch : Fetch) (seed : String) (d : Nat) :
    (∀ r ∈ seedRefs fetch seed,
        (buildGraph fetch (createEntry seed) d).1.graph.edgeRel seed r =
          some (if r = seed ∧ seed ∈ seedCits fetch seed then "cited_by"
                else "cites")) ∧
      (∀ c ∈ seedCits fetch seed,
          (buildGraph fetch (createEntry seed) d).1.graph.edgeRel c seed =
            some "cited_by") ∧
      (∀ e ∈ (buildGraph fetch (createEntry seed) d).1.graph.edges,
          (e.src = seed ∧ e.tgt ∈ seedRefs fetch seed) ∨
            (e.tgt = seed ∧ e.src ∈ seedCits fetch seed)) ∧
      (∀ (s : LoopState) (fuel : Nat), seed ∈ s.processed →
          (buildLoop fetch seed fuel s).entry.graph.edges =
              s.entry.graph.edges ∧
            (buildLoop fetch seed fuel s).frontier.IsSuffix s.frontier) := by
  have hG : (buildGraph fetch (createEntry seed) d).1.graph =
      (buildFinalState fetch (createEntry seed)).entry.graph :=
    (buildGraph_projections _ _ _).2.2
  have hlt1 : ([seed] : List String).length < MAX_ARTICLES := by
    simp only [List.length_singleton, MAX_ARTICLES]
    omega
  cases hfc : fetch seed with
  | none =>
    have hre : seedRefs fetch seed = [] := by simp [seedRefs, hfc]
    have hce : seedCits fetch seed = [] := by simp [seedCits, hfc]
    have hE : (buildFinalState fetch (createEntry seed)).entry.graph.edges =
        [] := by
      rw [buildFinal_edges fetch seed, hfc]
    refine ⟨?_, ?_, ?_, fun s fuel hmem => buildLoop_frozen fetch seed fuel s hmem⟩
    · intro r hr
      rw [hre] at hr
      exact absurd hr (List.not_mem_nil _)
    · intro c hc
      rw [hce] at hc
      exact absurd hc (List.not_mem_nil _)
    · intro e he
      rw [hG, hE] at he
      exact absurd he (List.not_mem_nil _)
  | some val =>
    obtain ⟨det, refs, cits⟩ := val
    have hre : seedRefs fetch seed = refs := by simp [seedRefs, hfc]
    have hce : seedCits fetch seed = cits := by simp [seedCits, hfc]
    have hE : (buildFinalState fetch (createEntry seed)).entry.graph.edges =
        (expandCitations seed [seed] cits
          (expandReferences seed [seed] refs
            (DiGraph.empty.addNode seed det, []))).1.edges := by
      rw [buildFinal_edges fetch seed, hfc]
    have hrel : ∀ u v,
        (buildGraph fetch (createEntry seed) d).1.graph.edgeRel u v =
          (expandCitations seed [seed] cits
            (expandReferences seed [seed] refs
              (DiGraph.empty.addNode seed det, []))).1.edgeRel u v := by
      intro u v
      apply edgeRel_congr
      rw [hG, hE]
    have hcitsRel := expandCitations_edgeRel seed [seed] hlt1 cits
      (expandReferences seed [seed] refs
        (DiGraph.empty.addNode seed det, [])).1
      (expandReferences seed [seed] refs
        (DiGraph.empty.addNode seed det, [])).2
    simp only [Prod.mk.eta] at hcitsRel
    have hrefsRel := expandReferences_edgeRel seed [seed] hlt1 refs
      (DiGraph.empty.addNode seed det) []
    refine ⟨?_, ?_, ?_, fun s fuel hmem => buildLoop_frozen fetch seed fuel s hmem⟩
    · intro r hr
      rw [hre] at hr
      rw [hce]
      rw [hrel, hcitsRel, hrefsRel]
      by_cases hcond : r = seed ∧ seed ∈ cits
      · rw [if_pos hcond, if_pos hcond]
      · rw [if_neg hcond, if_pos ⟨rfl, hr⟩, if_neg hcond]
    · intro cc hcc
      rw [hce] at hcc
      rw [hrel, hcitsRel]
      rw [if_pos ⟨rfl, hcc⟩]
    · intro e he
      rw [hG, hE] at he
      have hmem1 := expandCitations_mem seed [seed] cits
        (expandReferences seed [seed] refs
          (DiGraph.empty.addNode seed det, [])).1
        (expandReferences seed [seed] refs
          (DiGraph.empty.addNode seed det, [])).2
      simp only [Prod.mk.eta] at hmem1
      rcases hmem1 e he with ⟨h1, h2⟩ | hmem2
      · right
        refine ⟨h1, ?_⟩
        rw [hce]
        exact h2
      · have hmem3 := expandReferences_mem seed [seed] refs
          (DiGraph.empty.addNode seed det) [] e hmem2
        rcases hmem3 with ⟨h1, h2⟩ | habs
        · left
          refine ⟨h1, ?_⟩
          rw [hre]
          exact h2
        · rw [addNode_edges] at habs
          exact absurd habs (List.not_mem_nil _)

/-- C7 witness: the theorem evaluated on a seed with one reference and one
citing work. -/
theorem c7_seed_only_expansion_witness :
    (buildGraph fetchOneEach (createEntry "1") 3).1.graph.edgeRel "1" "2" =
        some (if ("2" : String) = "1" ∧ "1" ∈ seedCits fetchOneEach "1" then
          "cited_by" else "cites") ∧
      (buildGraph fetchOneEach (createEntry "1") 3).1.graph.edgeRel "3" "1" =
        some "cited_by" ∧
      (buildLoop fetchOneEach "1" 5
          ⟨createEntry "1", ["1"], []⟩).entry.graph.edges =
        (⟨createEntry "1", ["1"], []⟩ : LoopState).entry.graph.edges :=
  ⟨(c7_seed_only_expansion fetchOneEach "1" 3).1 "2" (by decide),
   (c7_seed_only_expansion fetchOneEach "1" 3).2.1 "3" (by decide),
   ((c7_seed_only_expansion fetchOneEach "1" 3).2.2.2
      ⟨createEntry "1", ["1"], []⟩ 5 (by decide)).1⟩

/-- C8: for every build, every edge of the resulting graph has both its
source and target identifiers present in the node set (provided the graph
being built already satisfied this, which the empty graph from
`create_graph` does). -/
theorem c8_edge_endpoints_in_nodes (fetch : Fetch) (e : GraphEntry) (d : Nat)
    (h : edgeClosedB e.graph = true) :
    ∀ ed ∈ (buildGraph fetch e d).1.graph.edges,
      (buildGraph fetch e d).1.graph.hasNode ed.src = true ∧
        (buildGraph fetch e d).1.graph.hasNode ed.tgt = true := by
  have hc := buildGraph_closed fetch e d h
  rw [edgeClosedB, List.all_eq_true] at hc
  intro ed hed
  have h2 := hc ed hed
  rw [Bool.and_eq_true] at h2
  exact h2

/-- C8 witness: both endpoints of the seed's `cites` edge are nodes of the
built graph. -/
theorem c8_edge_endpoints_witness :
    (buildGraph fetchOneEach (createEntry "1") 3).1.graph.hasNode "1" = true ∧
      (buildGraph fetchOneEach (createEntry "1") 3).1.graph.hasNode "2" = true := by
  have h := c8_edge_endpoints_in_nodes fetchOneEach (createEntry "1") 3
    (by decide) ⟨"1", "2", "cites"⟩ (by decide)
  exact h

end PubMedX
